import Mathlib

/-!
# Verification of the au-rogue migration engine

A shallow embedding, in Lean 4, of the transformation passes of the
au-rogue source-to-source rewriter (an Aurelia v1 → v2 migration tool),
together with theorems settling a list of specification claims about it.

The embedding follows the TypeScript sources:
* `src/types.ts` — the `Reporter` change log (`ChangeEntry`, `ReportData`);
* `src/passes/transform-di.ts` — the dependency-injection pass
  (`transformDI`, `removeNamedImports`, `ensureImport`,
  `tokenNameForInterface`);
* `src/passes/transform-computed.ts` — the `@computedFrom` pass;
* `src/passes/transform-custom-element.ts` — the `@inlineView` / `@noView`
  / `@customElement` pass;
* `src/passes/transform-templates.ts` — the markup rewriter
  (`transformTemplates`) and the `PLATFORM.moduleName` pass
  (`transformPlatform`).

ts-morph syntax nodes are embedded structurally: an import declaration is
its module specifier plus its named / default / namespace bindings; a
decorator is its (call or plain) expression; a class is its decorators,
constructors and members.  The static-type classification that ts-morph
performs for constructor parameters (class declaration symbol /
interface type / other) is carried on the embedded parameter as the two
booleans the pass reads (`declIsClass`, `typeIsInterface`), mirroring the
`isClass` / `isInterface` locals computed in `transformDI`.
-/

/-! ## Change log (src/types.ts) -/

inductive ChangeKind where
  | edit
  | add
  | remove
  | warn
  | note
deriving DecidableEq, Repr

structure ChangeEntry where
  file : String
  kind : ChangeKind
  message : String
  before : Option String := none
  after : Option String := none
deriving DecidableEq, Repr

structure ReportData where
  startedAt : String
  finishedAt : Option String := none
  options : List (String × String)
  entries : List ChangeEntry
deriving DecidableEq, Repr

namespace Reporter

/-- `new Reporter(options)` — `startedAt` is stamped, `finishedAt` unset,
`entries` empty (constructor in `src/types.ts`). -/
def new (options : List (String × String)) (startedAt : String) : ReportData :=
  { startedAt := startedAt, finishedAt := none, options := options, entries := [] }

def edit (r : ReportData) (file message : String)
    (before after : Option String := none) : ReportData :=
  { r with entries := r.entries ++ [⟨file, ChangeKind.edit, message, before, after⟩] }

def warn (r : ReportData) (file message : String) : ReportData :=
  { r with entries := r.entries ++ [⟨file, ChangeKind.warn, message, none, none⟩] }

def note (r : ReportData) (file message : String) : ReportData :=
  { r with entries := r.entries ++ [⟨file, ChangeKind.note, message, none, none⟩] }

def add (r : ReportData) (file message : String)
    (after : Option String := none) : ReportData :=
  { r with entries := r.entries ++ [⟨file, ChangeKind.add, message, none, after⟩] }

def remove (r : ReportData) (file message : String)
    (before : Option String := none) : ReportData :=
  { r with entries := r.entries ++ [⟨file, ChangeKind.remove, message, before, none⟩] }

/-- `Reporter.finish()` — stamps `finishedAt` and returns the data object. -/
def finish (r : ReportData) (now : String) : ReportData :=
  { r with finishedAt := some now }

/-- One append-only operation on the change log: the five recording
methods of the `Reporter` class. -/
inductive Op where
  | edit (file message : String) (before after : Option String)
  | warn (file message : String)
  | note (file message : String)
  | add (file message : String) (after : Option String)
  | remove (file message : String) (before : Option String)
deriving DecidableEq, Repr

def applyOp (r : ReportData) (op : Op) : ReportData :=
  match op with
  | Op.edit file message before after => Reporter.edit r file message before after
  | Op.warn file message => Reporter.warn r file message
  | Op.note file message => Reporter.note r file message
  | Op.add file message after => Reporter.add r file message after
  | Op.remove file message before => Reporter.remove r file message before

/-- The entry a recording operation appends. -/
def opEntry : Op → ChangeEntry
  | Op.edit file message before after => ⟨file, ChangeKind.edit, message, before, after⟩
  | Op.warn file message => ⟨file, ChangeKind.warn, message, none, none⟩
  | Op.note file message => ⟨file, ChangeKind.note, message, none, none⟩
  | Op.add file message after => ⟨file, ChangeKind.add, message, none, after⟩
  | Op.remove file message before => ⟨file, ChangeKind.remove, message, before, none⟩

end Reporter

/-! ## Shared syntax-model pieces -/

structure NamedImport where
  name : String
  aliasName : Option String := none
deriving DecidableEq, Repr

structure ImportDecl where
  moduleSpecifier : String
  namedImports : List NamedImport
  defaultImport : Option String := none
  namespaceImport : Option String := none
deriving DecidableEq, Repr

/-- The local name a named import binds (`getAliasNode()?.getText() ?? getName()`). -/
def NamedImport.localName (ni : NamedImport) : String :=
  ni.aliasName.getD ni.name

/-! ## String helpers (JS string operations used by the passes) -/

/-- Whether `pat` occurs in `s` (JS `String.prototype.includes`). -/
def charListContains (s pat : List Char) : Bool :=
  match s with
  | [] => pat.isEmpty
  | c :: cs => pat.isPrefixOf (c :: cs) || charListContains cs pat

def containsSubstr (s pat : String) : Bool :=
  charListContains s.toList pat.toList

/-- Replace the first occurrence of `pat` by `rep` (JS `String.prototype.replace`
with a plain-string pattern). -/
def replaceFirstL (pat rep : List Char) : List Char → List Char
  | [] => []
  | c :: cs =>
    if pat.isPrefixOf (c :: cs) then rep ++ (c :: cs).drop pat.length
    else c :: replaceFirstL pat rep cs

def replaceFirst (s pat rep : String) : String :=
  String.mk (replaceFirstL pat.toList rep.toList s.toList)

/-- The suffix strictly after the last `>` of the list. -/
def dropThroughLastGt (cs : List Char) : List Char :=
  (cs.reverse.takeWhile (fun c => c ≠ '>')).reverse

/-- JS `typeText.replace(/<.*>/, '')`: delete from the first `<` that has a
later `>` through the last `>` (the regex is greedy and applied once). -/
def stripGenericsL : List Char → List Char
  | [] => []
  | c :: cs =>
    if c = '<' ∧ cs.contains '>' then dropThroughLastGt cs
    else c :: stripGenericsL cs

def stripGenerics (s : String) : String :=
  String.mk (stripGenericsL s.toList)

/-- JS truthiness of a `string | null` value: non-null and non-empty. -/
def optTruthy : Option String → Bool
  | some t => t ≠ ""
  | none => false

/-- `cls.getName() || '(anonymous)'`. -/
def displayName (n : Option String) : String :=
  match n with
  | some s => if s = "" then "(anonymous)" else s
  | none => "(anonymous)"

/-- Prefix before the first `.` (JS `name.split('.')[0]`). -/
def takeBeforeDot (s : String) : String :=
  String.mk (s.toList.takeWhile (fun c => c ≠ '.'))

/-! ## Claim C9 — Reporter.finish -/

/-- C9: `Reporter.finish()` stamps the completion timestamp and returns the
accumulated log: all previously appended entries are returned unchanged and
in append order (the i-th recording operation contributed the i-th entry),
and the timestamp is unset until `finish` runs, so a run that concludes
with a single `finish()` call sets it exactly once. -/
theorem c9_reporter_finish (options : List (String × String)) (startedAt now : String)
    (ops : List Reporter.Op) :
    let r := ops.foldl Reporter.applyOp (Reporter.new options startedAt)
    r.finishedAt = none ∧
    r.entries = ops.map Reporter.opEntry ∧
    (Reporter.finish r now).finishedAt = some now ∧
    (Reporter.finish r now).entries = r.entries ∧
    (Reporter.finish r now).startedAt = r.startedAt ∧
    (Reporter.finish r now).options = r.options := by
  intro r
  have hgen : ∀ (l : List Reporter.Op) (s : ReportData),
      (l.foldl Reporter.applyOp s).finishedAt = s.finishedAt ∧
      (l.foldl Reporter.applyOp s).entries = s.entries ++ l.map Reporter.opEntry := by
    intro l
    induction l with
    | nil => intro s; simp
    | cons op rest ih =>
      intro s
      have h := ih (Reporter.applyOp s op)
      constructor
      · rw [List.foldl_cons, h.1]
        cases op <;> rfl
      · rw [List.foldl_cons, h.2]
        cases op <;> simp [Reporter.applyOp, Reporter.opEntry, Reporter.edit,
          Reporter.warn, Reporter.note, Reporter.add, Reporter.remove]
  have h := hgen ops (Reporter.new options startedAt)
  refine ⟨?_, ?_, rfl, rfl, rfl, rfl⟩
  · exact h.1.trans rfl
  · simpa [Reporter.new] using h.2

/-! ## Dependency-injection pass (src/passes/transform-di.ts) -/

namespace TransformDI

/-- A constructor parameter as `transformDI` inspects it.  `declIsClass`
embeds `decls?.some(d => Node.isClassDeclaration(d) || Node.isClassExpression(d))`
and `typeIsInterface` embeds `type.isInterface()`, the two answers the pass
obtains from the ts-morph type system; `typeText` is `typeNode?.getText()`;
`text` is the parameter's full source text. -/
structure ParamProp where
  name : String
  typeText : Option String
  declIsClass : Bool
  typeIsInterface : Bool
  isParameterProperty : Bool
  scope : String
  isReadonly : Bool
  text : String
deriving DecidableEq, Repr

structure PropertyDecl where
  name : String
  scope : String
  isReadonly : Bool
  typeText : Option String
  initializer : String
deriving DecidableEq, Repr

structure DIDecorator where
  name : String
deriving DecidableEq, Repr

structure DIClass where
  className : Option String
  decorators : List DIDecorator
  ctors : List (List ParamProp)
  properties : List PropertyDecl
deriving DecidableEq, Repr

/-- A file-level `const` variable statement (`insertVariableStatement`). -/
structure VarStmt where
  name : String
  initializer : String
deriving DecidableEq, Repr

structure DISourceFile where
  path : String
  imports : List ImportDecl
  varStatements : List VarStmt
  classes : List DIClass
deriving DecidableEq, Repr

def aureliaV1Modules : List String :=
  ["aurelia-framework", "aurelia-dependency-injection", "aurelia-binding"]

def tokenNameForInterface (name : String) : String :=
  name ++ "Token"

/-- Add the missing names to the first import of `module`
(`existing.addNamedImport` for each name not already present). -/
def addNames (imp : ImportDecl) (names : List String) : ImportDecl :=
  { imp with namedImports :=
      (imp.namedImports ++
        (names.filter (fun n => ¬ imp.namedImports.any (fun ni => ni.name = n))).map
          (fun n => { name := n, aliasName := none })) }

def addToFirst (imports : List ImportDecl) (module : String) (names : List String) :
    Option (List ImportDecl) :=
  match imports with
  | [] => none
  | i :: rest =>
    if i.moduleSpecifier = module then some (addNames i names :: rest)
    else (addToFirst rest module names).map (fun r => i :: r)

/-- `ensureImport(sf, module, names)`: merge into an existing import of
`module`, else append a fresh import declaration. -/
def ensureImport (imports : List ImportDecl) (module : String) (names : List String) :
    List ImportDecl :=
  match addToFirst imports module names with
  | some r => r
  | none =>
    imports ++ [{ moduleSpecifier := module,
                  namedImports := names.map (fun n => { name := n, aliasName := none }),
                  defaultImport := none, namespaceImport := none }]

/-- One import declaration under `removeNamedImports`: drop the matching
named bindings; if any was dropped and the statement now has no named,
default or namespace binding, drop the statement. -/
def removeFromImport (removeNames : List String) (imp : ImportDecl) : Option ImportDecl :=
  let kept := imp.namedImports.filter (fun ni => ¬ removeNames.contains ni.name)
  let removed := kept.length ≠ imp.namedImports.length
  if removed ∧ kept = [] ∧ imp.defaultImport = none ∧ imp.namespaceImport = none then none
  else some { imp with namedImports := kept }

def removeNamedImports (imports : List ImportDecl) (module : String)
    (removeNames : List String) : List ImportDecl :=
  imports.filterMap (fun imp =>
    if imp.moduleSpecifier = module then removeFromImport removeNames imp
    else some imp)

/-- Result of handling one constructor parameter of the per-class loop in
`transformDI`: the (possibly extended) file-level variable statements, the
class property inserted at member index 0 (if converted), whether the
parameter stays in the constructor, the change-log entries appended, and
the `needResolve` / `needDI` / `touched` contributions. -/
structure ParamStep where
  varStatements : List VarStmt
  newProp : Option PropertyDecl
  kept : Bool
  entries : List ChangeEntry
  needResolve : Bool
  needDI : Bool
  touched : Bool
deriving DecidableEq, Repr

def convertParam (file cname : String) (vs : List VarStmt) (p : ParamProp) : ParamStep :=
  if p.declIsClass ∧ optTruthy p.typeText then
    let t := p.typeText.getD ""
    { varStatements := vs,
      newProp := some { name := p.name, scope := p.scope, isReadonly := p.isReadonly,
                        typeText := some t, initializer := "resolve(" ++ t ++ ")" },
      kept := false,
      entries := [⟨file, ChangeKind.edit,
        "Converted parameter property '" ++ p.name ++ ": " ++ t ++ "' to 'resolve(" ++ t
          ++ ")' on class " ++ cname, none, none⟩],
      needResolve := true, needDI := false, touched := true }
  else if p.typeIsInterface ∧ optTruthy p.typeText then
    let t := p.typeText.getD ""
    let tokenConst := tokenNameForInterface (stripGenerics t)
    let hasToken := vs.any (fun v => v.name = tokenConst)
    let vs' := if hasToken then vs
      else { name := tokenConst,
             initializer := "DI.createInterface<" ++ t ++ ">('" ++ t ++ "')" } :: vs
    let tokenEntries : List ChangeEntry := if hasToken then []
      else [⟨file, ChangeKind.add,
        "Added interface token '" ++ tokenConst ++ "' for type '" ++ t ++ "'", none, none⟩]
    { varStatements := vs',
      newProp := some { name := p.name, scope := p.scope, isReadonly := p.isReadonly,
                        typeText := some t,
                        initializer := "resolve(" ++ tokenConst ++ ")" },
      kept := false,
      entries := tokenEntries ++
        [⟨file, ChangeKind.edit,
          "Converted parameter property '" ++ p.name ++ ": " ++ t ++ "' to 'resolve("
            ++ tokenConst ++ ")' on class " ++ cname ++ " (generated token)", none, none⟩,
         ⟨file, ChangeKind.warn,
          "Generated DI token '" ++ tokenConst ++ "' for interface '" ++ t
            ++ "'. Confirm registrations match this token.", none, none⟩],
      needResolve := true, needDI := ¬ hasToken, touched := true }
  else
    { varStatements := vs,
      newProp := none,
      kept := true,
      entries := [⟨file, ChangeKind.warn,
        "Skipped converting parameter property '" ++ p.name
          ++ (match p.typeText with
              | some t => if t = "" then "" else ": " ++ t
              | none => "")
          ++ "' on class " ++ cname
          ++ " due to non-runtime type. Replace with resolve(...) or @inject manually.",
        none, none⟩],
      needResolve := false, needDI := false, touched := false }

/-- Outcome of the whole parameter loop of one class: `converted` lists the
inserted properties in processing order (each was inserted at member
index 0, so the final member list is `converted.reverse ++` the previous
members), `keptParams` is the constructor parameter list after `p.remove()`
calls. -/
structure ParamsResult where
  varStatements : List VarStmt
  converted : List PropertyDecl
  keptParams : List ParamProp
  entries : List ChangeEntry
  needResolve : Bool
  needDI : Bool
  touched : Bool
deriving DecidableEq, Repr

def processParams (file cname : String) (vs : List VarStmt) :
    List ParamProp → ParamsResult
  | [] => { varStatements := vs, converted := [], keptParams := [], entries := [],
            needResolve := false, needDI := false, touched := false }
  | p :: rest =>
    if p.isParameterProperty then
      let s := convertParam file cname vs p
      let r := processParams file cname s.varStatements rest
      { varStatements := r.varStatements,
        converted := (match s.newProp with | some pr => [pr] | none => []) ++ r.converted,
        keptParams := (if s.kept then [p] else []) ++ r.keptParams,
        entries := s.entries ++ r.entries,
        needResolve := s.needResolve || r.needResolve,
        needDI := s.needDI || r.needDI,
        touched := s.touched || r.touched }
    else
      let r := processParams file cname vs rest
      { r with keptParams := p :: r.keptParams }

/-- Mutable per-file context threaded through the class loop. -/
structure DICtx where
  imports : List ImportDecl
  varStatements : List VarStmt
  entries : List ChangeEntry
  touched : Bool
deriving DecidableEq, Repr

def processClass (file : String) (ctx : DICtx) (c : DIClass) : DICtx × DIClass :=
  let autoDecos := c.decorators.filter (fun d => d.name = "autoinject")
  let decs := c.decorators.filter (fun d => ¬ d.name = "autoinject")
  let e0 : List ChangeEntry :=
    if autoDecos.isEmpty then []
    else [⟨file, ChangeKind.edit,
      "Removed @autoinject on class " ++ displayName c.className, none, none⟩]
  let ctx1 : DICtx := { ctx with entries := ctx.entries ++ e0,
                                 touched := ctx.touched || ¬ autoDecos.isEmpty }
  match c.ctors with
  | [] => (ctx1, { c with decorators := decs })
  | ps :: restCtors =>
    if (ps.filter (fun p => p.isParameterProperty)).isEmpty then
      (ctx1, { c with decorators := decs })
    else
      let r := processParams file (displayName c.className) ctx1.varStatements ps
      let imports1 := if r.needResolve then ensureImport ctx1.imports "aurelia" ["resolve"]
                      else ctx1.imports
      let imports2 := if r.needDI then ensureImport imports1 "aurelia" ["DI", "resolve"]
                      else imports1
      ({ imports := imports2, varStatements := r.varStatements,
         entries := ctx1.entries ++ r.entries,
         touched := ctx1.touched || r.touched },
       { c with decorators := decs,
                ctors := r.keptParams :: restCtors,
                properties := r.converted.reverse ++ c.properties })

def processClasses (file : String) (ctx : DICtx) : List DIClass → DICtx × List DIClass
  | [] => (ctx, [])
  | c :: cs =>
    let r1 := processClass file ctx c
    let r2 := processClasses file r1.1 cs
    (r2.1, r1.2 :: r2.2)

/-- The post-pass cleanup of one v1 module: drop its now-empty import
statements, logging a `remove` entry for each. -/
def dropEmptyFor (file module : String) : List ImportDecl → List ImportDecl × List ChangeEntry
  | [] => ([], [])
  | i :: rest =>
    let r := dropEmptyFor file module rest
    if i.moduleSpecifier = module ∧ i.namedImports = [] ∧ i.defaultImport = none ∧
        i.namespaceImport = none then
      (r.1, ⟨file, ChangeKind.remove, "Removed empty import '" ++ module ++ "'",
             none, none⟩ :: r.2)
    else (i :: r.1, r.2)

/-- The final `if (touched)` cleanup loop over the three v1 modules, in
their declaration order. -/
def cleanupEmptyMods (file : String) (mods : List String) (imports : List ImportDecl) :
    List ImportDecl × List ChangeEntry :=
  match mods with
  | [] => (imports, [])
  | m :: rest =>
    let r1 := dropEmptyFor file m imports
    let r2 := cleanupEmptyMods file rest r1.1
    (r2.1, r1.2 ++ r2.2)

def cleanupEmptyV1 (file : String) (imports : List ImportDecl) :
    List ImportDecl × List ChangeEntry :=
  cleanupEmptyMods file aureliaV1Modules imports

/-- `transformDI` restricted to one source file (the body of the
`for (const sf of project.getSourceFiles())` loop). -/
def transformDIFile (sf : DISourceFile) : DISourceFile × List ChangeEntry :=
  let imports0 := aureliaV1Modules.foldl
    (fun imps m => removeNamedImports imps m ["autoinject"]) sf.imports
  let ctx0 : DICtx := { imports := imports0, varStatements := sf.varStatements,
                        entries := [], touched := false }
  let pc := processClasses sf.path ctx0 sf.classes
  let cl := if pc.1.touched then cleanupEmptyV1 sf.path pc.1.imports
            else (pc.1.imports, [])
  ({ path := sf.path, imports := cl.1, varStatements := pc.1.varStatements,
     classes := pc.2 },
   pc.1.entries ++ cl.2)

/-- The whole pass over a project: every file in turn, one shared change log. -/
def transformDI : List DISourceFile → List DISourceFile × List ChangeEntry
  | [] => ([], [])
  | sf :: rest =>
    let r1 := transformDIFile sf
    let r2 := transformDI rest
    (r1.1 :: r2.1, r1.2 ++ r2.2)

end TransformDI

/-! ## Claim C6 — import minimality of removeNamedImports -/

/-- C6: under `removeNamedImports`, an import statement (no default
binding, no namespace binding) whose only named binding is removed is
removed entirely; removing one of several named bindings keeps the
statement with the remaining bindings intact and in order. -/
theorem c6_import_minimality :
    (∀ (pre post : List ImportDecl) (imp : ImportDecl) (b : NamedImport) (m n : String),
      imp.moduleSpecifier = m → imp.namedImports = [b] → b.name = n →
      imp.defaultImport = none → imp.namespaceImport = none →
      TransformDI.removeFromImport [n] imp = none ∧
      TransformDI.removeNamedImports (pre ++ imp :: post) m [n] =
        TransformDI.removeNamedImports pre m [n] ++
          TransformDI.removeNamedImports post m [n]) ∧
    (∀ (pre post : List ImportDecl) (imp : ImportDecl) (b' : NamedImport) (m n : String),
      imp.moduleSpecifier = m → b' ∈ imp.namedImports → ¬ b'.name = n →
      TransformDI.removeFromImport [n] imp =
        some { imp with namedImports :=
                 imp.namedImports.filter (fun x => ¬ [n].contains x.name) } ∧
      TransformDI.removeNamedImports (pre ++ imp :: post) m [n] =
        TransformDI.removeNamedImports pre m [n] ++
          { imp with namedImports :=
              imp.namedImports.filter (fun x => ¬ [n].contains x.name) } ::
            TransformDI.removeNamedImports post m [n]) := by
  constructor
  · intro pre post imp b m n hm hni hb hd hns
    have hnone : TransformDI.removeFromImport [n] imp = none := by
      simp [TransformDI.removeFromImport, hni, hb, hd, hns]
    refine ⟨hnone, ?_⟩
    simp only [TransformDI.removeNamedImports, List.filterMap_append, List.filterMap_cons]
    rw [if_pos hm, hnone]
  · intro pre post imp b' m n hm hb' hbn
    have hkeep : b' ∈ imp.namedImports.filter (fun x => ¬ [n].contains x.name) := by
      simp [List.mem_filter, hb', hbn]
    have hne : imp.namedImports.filter (fun x => ¬ [n].contains x.name) ≠ [] := by
      intro h
      rw [h] at hkeep
      exact absurd hkeep (List.not_mem_nil b')
    have hsome : TransformDI.removeFromImport [n] imp =
        some { imp with namedImports :=
                 imp.namedImports.filter (fun x => ¬ [n].contains x.name) } := by
      unfold TransformDI.removeFromImport
      rw [if_neg]
      intro hcon
      exact hne hcon.2.1
    refine ⟨hsome, ?_⟩
    simp only [TransformDI.removeNamedImports, List.filterMap_append, List.filterMap_cons]
    rw [if_pos hm, hsome]

/-- C6 witness: a single-binding import of `aurelia-framework` is removed
entirely, a two-binding one keeps its other binding. -/
theorem c6_import_minimality_witness :
    TransformDI.removeFromImport ["autoinject"]
      { moduleSpecifier := "aurelia-framework",
        namedImports := [{ name := "autoinject", aliasName := none }],
        defaultImport := none, namespaceImport := none } = none ∧
    TransformDI.removeFromImport ["autoinject"]
      { moduleSpecifier := "aurelia-framework",
        namedImports := [{ name := "autoinject", aliasName := none },
                         { name := "computedFrom", aliasName := none }],
        defaultImport := none, namespaceImport := none } =
      some { moduleSpecifier := "aurelia-framework",
             namedImports := [{ name := "computedFrom", aliasName := none }],
             defaultImport := none, namespaceImport := none } := by
  constructor
  · exact (c6_import_minimality.1 [] []
      { moduleSpecifier := "aurelia-framework",
        namedImports := [{ name := "autoinject", aliasName := none }],
        defaultImport := none, namespaceImport := none }
      { name := "autoinject", aliasName := none }
      "aurelia-framework" "autoinject" rfl rfl rfl rfl rfl).1
  · have h := (c6_import_minimality.2 [] []
      { moduleSpecifier := "aurelia-framework",
        namedImports := [{ name := "autoinject", aliasName := none },
                         { name := "computedFrom", aliasName := none }],
        defaultImport := none, namespaceImport := none }
      { name := "computedFrom", aliasName := none }
      "aurelia-framework" "autoinject" rfl (by simp) (by decide)).1
    simpa using h

/-! ## Claim C3 — non-resolvable parameter type: skip and warn once -/

/-- C3: a constructor parameter property whose declared type is neither a
resolvable class nor a resolvable interface (the two conditions the pass
checks) stays in the constructor unchanged (the `ParamProp`, including its
source `text`, is kept verbatim), no member is inserted, and exactly one
change-log entry is appended for it — a `warn` naming the parameter. -/
theorem c3_non_resolvable_param_untouched_one_warn
    (file cname : String) (vs : List TransformDI.VarStmt) (p : TransformDI.ParamProp)
    (rest : List TransformDI.ParamProp)
    (hpp : p.isParameterProperty = true)
    (hc : ¬ (p.declIsClass ∧ optTruthy p.typeText))
    (hi : ¬ (p.typeIsInterface ∧ optTruthy p.typeText)) :
    TransformDI.convertParam file cname vs p =
      { varStatements := vs, newProp := none, kept := true,
        entries := [⟨file, ChangeKind.warn,
          "Skipped converting parameter property '" ++ p.name
            ++ (match p.typeText with
                | some t => if t = "" then "" else ": " ++ t
                | none => "")
            ++ "' on class " ++ cname
            ++ " due to non-runtime type. Replace with resolve(...) or @inject manually.",
          none, none⟩],
        needResolve := false, needDI := false, touched := false } ∧
    TransformDI.processParams file cname vs (p :: rest) =
      { TransformDI.processParams file cname vs rest with
          keptParams := p :: (TransformDI.processParams file cname vs rest).keptParams,
          entries := ⟨file, ChangeKind.warn,
            "Skipped converting parameter property '" ++ p.name
              ++ (match p.typeText with
                  | some t => if t = "" then "" else ": " ++ t
                  | none => "")
              ++ "' on class " ++ cname
              ++ " due to non-runtime type. Replace with resolve(...) or @inject manually.",
            none, none⟩ :: (TransformDI.processParams file cname vs rest).entries } := by
  have hconv : TransformDI.convertParam file cname vs p =
      { varStatements := vs, newProp := none, kept := true,
        entries := [⟨file, ChangeKind.warn,
          "Skipped converting parameter property '" ++ p.name
            ++ (match p.typeText with
                | some t => if t = "" then "" else ": " ++ t
                | none => "")
            ++ "' on class " ++ cname
            ++ " due to non-runtime type. Replace with resolve(...) or @inject manually.",
          none, none⟩],
        needResolve := false, needDI := false, touched := false } := by
    unfold TransformDI.convertParam
    rw [if_neg hc, if_neg hi]
  refine ⟨hconv, ?_⟩
  conv_lhs => rw [TransformDI.processParams, if_pos hpp, hconv]
  simp

/-- C3 witness: a union-typed parameter property (`value: MyType` where
`MyType = string | number`) is kept and warned about. -/
theorem c3_witness :
    TransformDI.convertParam "test.ts" "MyService" []
      { name := "value", typeText := some "MyType", declIsClass := false,
        typeIsInterface := false, isParameterProperty := true,
        scope := "private", isReadonly := false,
        text := "private value: MyType" } =
      { varStatements := [], newProp := none, kept := true,
        entries := [⟨"test.ts", ChangeKind.warn,
          "Skipped converting parameter property 'value: MyType' on class MyService due to non-runtime type. Replace with resolve(...) or @inject manually.",
          none, none⟩],
        needResolve := false, needDI := false, touched := false } := by
  have h := (c3_non_resolvable_param_untouched_one_warn "test.ts" "MyService" []
    { name := "value", typeText := some "MyType", declIsClass := false,
      typeIsInterface := false, isParameterProperty := true,
      scope := "private", isReadonly := false,
      text := "private value: MyType" } [] rfl (by decide) (by decide)).1
  simpa using h

/-! ## Claim C1 — classes without the @autoinject marker -/

/-- A file with a single class that has NO `@autoinject` decorator but a
constructor parameter property of a resolvable class type. -/
def c1File : TransformDI.DISourceFile :=
  { path := "src/app.ts", imports := [], varStatements := [],
    classes := [{ className := some "MyService", decorators := [],
                  ctors := [[{ name := "http", typeText := some "HttpClient",
                               declIsClass := true, typeIsInterface := false,
                               isParameterProperty := true, scope := "private",
                               isReadonly := false,
                               text := "private http: HttpClient" }]],
                  properties := [] }] }

/-- C1 counterexample: `transformDI` converts the parameter property of a
class that does NOT carry `@autoinject` — the constructor parameter is
removed, a `resolve(...)` field is inserted and an `edit` entry is logged,
so the class is not left unchanged. -/
theorem c1_counterexample_unmarked_class_converted :
    (TransformDI.transformDIFile c1File).1.classes =
      [{ className := some "MyService", decorators := [], ctors := [[]],
         properties := [{ name := "http", scope := "private", isReadonly := false,
                          typeText := some "HttpClient",
                          initializer := "resolve(HttpClient)" }] }] ∧
    (TransformDI.transformDIFile c1File).2 =
      [⟨"src/app.ts", ChangeKind.edit,
        "Converted parameter property 'http: HttpClient' to 'resolve(HttpClient)' on class MyService",
        none, none⟩] := by
  constructor <;> rfl

/-- C1 amended: in `transformDI` the `@autoinject` marker gates only the
removal of the marker decorator itself; parameter-property conversion is
performed for every class with a constructor, so a class without the marker
is transformed exactly as the same class with the marker (same resulting
constructors, members and properties), and only its decorator list is left
untouched. -/
theorem c1_amended_marker_gates_only_decorator_removal
    (file : String) (ctx : TransformDI.DICtx) (c : TransformDI.DIClass)
    (h : c.decorators.filter (fun d => d.name = "autoinject") = []) :
    (TransformDI.processClass file ctx
        { c with decorators := { name := "autoinject" } :: c.decorators }).2 =
      (TransformDI.processClass file ctx c).2 ∧
    (TransformDI.processClass file ctx c).2.decorators = c.decorators := by
  have hall : ∀ d ∈ c.decorators, ¬ d.name = "autoinject" := by
    intro d hd
    simpa using (List.filter_eq_nil_iff.mp h) d hd
  have hkeep : c.decorators.filter (fun d => ¬ d.name = "autoinject") = c.decorators := by
    apply List.filter_eq_self.mpr
    intro d hd
    simpa using hall d hd
  unfold TransformDI.processClass
  simp only [List.filter_cons, h, hkeep]
  constructor
  · cases hc : c.ctors with
    | nil => simp
    | cons ps restCtors =>
      by_cases hps : (ps.filter (fun p => p.isParameterProperty)).isEmpty
      · simp [hps, hkeep, hall]
      · simp [hps, hkeep, hall]
  · cases hc : c.ctors with
    | nil => simp [hall]
    | cons ps restCtors =>
      by_cases hps : (ps.filter (fun p => p.isParameterProperty)).isEmpty
      · simp [hps, hkeep, hall]
      · simp [hps, hkeep, hall]

/-- C1 amended witness: the class of `c1File`, with and without the marker,
yields the same converted class. -/
theorem c1_amended_witness :
    (TransformDI.processClass "src/app.ts"
        { imports := [], varStatements := [], entries := [], touched := false }
        { className := some "MyService",
          decorators := [{ name := "autoinject" }],
          ctors := [[{ name := "http", typeText := some "HttpClient",
                       declIsClass := true, typeIsInterface := false,
                       isParameterProperty := true, scope := "private",
                       isReadonly := false, text := "private http: HttpClient" }]],
          properties := [] }).2 =
      (TransformDI.processClass "src/app.ts"
        { imports := [], varStatements := [], entries := [], touched := false }
        { className := some "MyService", decorators := [],
          ctors := [[{ name := "http", typeText := some "HttpClient",
                       declIsClass := true, typeIsInterface := false,
                       isParameterProperty := true, scope := "private",
                       isReadonly := false, text := "private http: HttpClient" }]],
          properties := [] }).2 := by
  exact (c1_amended_marker_gates_only_decorator_removal "src/app.ts"
    { imports := [], varStatements := [], entries := [], touched := false }
    { className := some "MyService", decorators := [],
      ctors := [[{ name := "http", typeText := some "HttpClient",
                   declIsClass := true, typeIsInterface := false,
                   isParameterProperty := true, scope := "private",
                   isReadonly := false, text := "private http: HttpClient" }]],
      properties := [] } rfl).1

/-! ## Claim C4 — interface-token registry dedup -/

/-- Number of file-level variable statements named `tok`. -/
def tokenCount (tok : String) (vs : List TransformDI.VarStmt) : Nat :=
  vs.countP (fun v => v.name == tok)

theorem tokenCount_convertParam (file cname : String) (vs : List TransformDI.VarStmt)
    (p : TransformDI.ParamProp) (tok : String)
    (h : tokenCount tok vs ≤ 1) :
    tokenCount tok (TransformDI.convertParam file cname vs p).varStatements ≤ 1 := by
  unfold TransformDI.convertParam
  by_cases h1 : p.declIsClass ∧ optTruthy p.typeText
  · rw [if_pos h1]
    exact h
  · rw [if_neg h1]
    by_cases h2 : p.typeIsInterface ∧ optTruthy p.typeText
    · rw [if_pos h2]
      dsimp only
      by_cases h3 : (vs.any fun v =>
          v.name = TransformDI.tokenNameForInterface (stripGenerics (p.typeText.getD "")))
      · rw [if_pos h3]
        exact h
      · rw [if_neg h3]
        unfold tokenCount at h ⊢
        rw [List.countP_cons]
        by_cases h4 :
            TransformDI.tokenNameForInterface (stripGenerics (p.typeText.getD "")) = tok
        · have hzero : vs.countP (fun v => v.name == tok) = 0 := by
            rw [List.countP_eq_zero]
            intro v hv
            simp only [List.any_eq_true, decide_eq_true_eq] at h3
            push_neg at h3
            simp only [beq_iff_eq, decide_eq_true_eq, ← h4]
            exact h3 v hv
          simp only [hzero]
          simp [h4]
        · simp only [beq_iff_eq]
          rw [if_neg]
          · omega
          · simpa using h4
    · rw [if_neg h2]
      exact h

theorem tokenCount_processParams (file cname : String) (vs : List TransformDI.VarStmt)
    (ps : List TransformDI.ParamProp) (tok : String)
    (h : tokenCount tok vs ≤ 1) :
    tokenCount tok (TransformDI.processParams file cname vs ps).varStatements ≤ 1 := by
  induction ps generalizing vs with
  | nil => exact h
  | cons p rest ih =>
    unfold TransformDI.processParams
    by_cases hpp : p.isParameterProperty
    · rw [if_pos hpp]
      exact ih _ (tokenCount_convertParam file cname vs p tok h)
    · rw [if_neg hpp]
      exact ih vs h

theorem tokenCount_processClass (file : String) (ctx : TransformDI.DICtx)
    (c : TransformDI.DIClass) (tok : String)
    (h : tokenCount tok ctx.varStatements ≤ 1) :
    tokenCount tok (TransformDI.processClass file ctx c).1.varStatements ≤ 1 := by
  unfold TransformDI.processClass
  dsimp only
  cases hc : c.ctors with
  | nil => exact h
  | cons ps restCtors =>
    dsimp only
    by_cases hps : (ps.filter (fun p => p.isParameterProperty)).isEmpty
    · rw [if_pos hps]
      exact h
    · rw [if_neg hps]
      exact tokenCount_processParams file (displayName c.className) ctx.varStatements ps tok h

theorem tokenCount_processClasses (file : String) (ctx : TransformDI.DICtx)
    (cs : List TransformDI.DIClass) (tok : String)
    (h : tokenCount tok ctx.varStatements ≤ 1) :
    tokenCount tok (TransformDI.processClasses file ctx cs).1.varStatements ≤ 1 := by
  induction cs generalizing ctx with
  | nil => exact h
  | cons c rest ih =>
    unfold TransformDI.processClasses
    exact ih _ (tokenCount_processClass file ctx c tok h)

/-- C4: for a file that does not already declare the synthetic token of
interface name `T`, `transformDI` creates at most one `const` declaration
named `tokenNameForInterface T`; the name is derived deterministically
(`T ++ "Token"`); and every interface-typed parameter property whose
stripped type name is `T` is converted to a field whose initializer is
`resolve(TToken)` — a second class depending on the same interface hits the
`getVariableDeclaration` dedup check and reuses the declaration. -/
theorem c4_token_registry_dedup (sf : TransformDI.DISourceFile) (T : String)
    (h : tokenCount (TransformDI.tokenNameForInterface T) sf.varStatements = 0) :
    tokenCount (TransformDI.tokenNameForInterface T)
      (TransformDI.transformDIFile sf).1.varStatements ≤ 1 ∧
    TransformDI.tokenNameForInterface T = T ++ "Token" ∧
    (∀ (file cname : String) (vs : List TransformDI.VarStmt)
        (p : TransformDI.ParamProp) (t : String),
      p.declIsClass = false → p.typeIsInterface = true → p.typeText = some t →
      ¬ t = "" → stripGenerics t = T →
      (TransformDI.convertParam file cname vs p).newProp =
        some { name := p.name, scope := p.scope, isReadonly := p.isReadonly,
               typeText := some t,
               initializer :=
                 "resolve(" ++ TransformDI.tokenNameForInterface T ++ ")" }) := by
  refine ⟨?_, rfl, ?_⟩
  · unfold TransformDI.transformDIFile
    simp only
    have h1 : tokenCount (TransformDI.tokenNameForInterface T) sf.varStatements ≤ 1 := by
      omega
    exact tokenCount_processClasses sf.path _ sf.classes _ h1
  · intro file cname vs p t hdecl hiface ht hne hstrip
    unfold TransformDI.convertParam
    rw [if_neg (by simp [hdecl])]
    rw [if_pos (by simp [hiface, ht, optTruthy, hne])]
    simp [ht, hstrip]

/-- A file with two classes, both depending on interface `ILogger` via a
parameter property. -/
def c4File : TransformDI.DISourceFile :=
  { path := "two.ts", imports := [], varStatements := [],
    classes :=
      [{ className := some "ServiceA", decorators := [{ name := "autoinject" }],
         ctors := [[{ name := "logger", typeText := some "ILogger",
                      declIsClass := false, typeIsInterface := true,
                      isParameterProperty := true, scope := "private",
                      isReadonly := false, text := "private logger: ILogger" }]],
         properties := [] },
       { className := some "ServiceB", decorators := [{ name := "autoinject" }],
         ctors := [[{ name := "logger", typeText := some "ILogger",
                      declIsClass := false, typeIsInterface := true,
                      isParameterProperty := true, scope := "private",
                      isReadonly := false, text := "private logger: ILogger" }]],
         properties := [] }] }

/-- C4 witness: on `c4File` the pass declares `ILoggerToken` at most once. -/
theorem c4_witness :
    tokenCount (TransformDI.tokenNameForInterface "ILogger")
      (TransformDI.transformDIFile c4File).1.varStatements ≤ 1 :=
  (c4_token_registry_dedup c4File "ILogger" rfl).1

/-! ## Claim C10 — unconditional removal of the autoinject import -/

theorem mem_addToFirst (l : List ImportDecl) (m : String) (names : List String)
    (r : List ImportDecl) (hr : TransformDI.addToFirst l m names = some r) :
    ∀ x ∈ r, x ∈ l ∨ x.moduleSpecifier = m := by
  induction l generalizing r with
  | nil => simp [TransformDI.addToFirst] at hr
  | cons i rest ih =>
    unfold TransformDI.addToFirst at hr
    by_cases hm : i.moduleSpecifier = m
    · rw [if_pos hm] at hr
      obtain rfl : TransformDI.addNames i names :: rest = r := by
        simpa using hr
      intro x hx
      rcases List.mem_cons.mp hx with hx | hx
      · right
        rw [hx]
        exact hm
      · exact Or.inl (List.mem_cons_of_mem i hx)
    · rw [if_neg hm] at hr
      rcases Option.map_eq_some'.mp hr with ⟨r', hr', rfl⟩
      intro x hx
      rcases List.mem_cons.mp hx with hx | hx
      · exact Or.inl (by rw [hx]; exact List.mem_cons_self i rest)
      · rcases ih r' hr' x hx with h | h
        · exact Or.inl (List.mem_cons_of_mem i h)
        · exact Or.inr h

theorem mem_ensureImport (l : List ImportDecl) (m : String) (names : List String)
    (x : ImportDecl) (hx : x ∈ TransformDI.ensureImport l m names) :
    x ∈ l ∨ x.moduleSpecifier = m := by
  unfold TransformDI.ensureImport at hx
  cases ha : TransformDI.addToFirst l m names with
  | some r =>
    rw [ha] at hx
    exact mem_addToFirst l m names r ha x hx
  | none =>
    rw [ha] at hx
    rcases List.mem_append.mp hx with h | h
    · exact Or.inl h
    · right
      have : x = { moduleSpecifier := m,
                   namedImports := names.map (fun n => { name := n, aliasName := none }),
                   defaultImport := none, namespaceImport := none } := by
        simpa using h
      rw [this]

theorem mem_processClass_imports (file : String) (ctx : TransformDI.DICtx)
    (c : TransformDI.DIClass) (x : ImportDecl)
    (hx : x ∈ (TransformDI.processClass file ctx c).1.imports) :
    x ∈ ctx.imports ∨ x.moduleSpecifier = "aurelia" := by
  unfold TransformDI.processClass at hx
  dsimp only at hx
  cases hc : c.ctors with
  | nil =>
    rw [hc] at hx
    exact Or.inl hx
  | cons ps restCtors =>
    rw [hc] at hx
    dsimp only at hx
    by_cases hps : (ps.filter (fun p => p.isParameterProperty)).isEmpty
    · rw [if_pos hps] at hx
      exact Or.inl hx
    · rw [if_neg hps] at hx
      dsimp only at hx
      set r := TransformDI.processParams file (displayName c.className) ctx.varStatements ps
      by_cases hdi : r.needDI
      · rw [if_pos hdi] at hx
        rcases mem_ensureImport _ _ _ x hx with h | h
        · by_cases hres : r.needResolve
          · rw [if_pos hres] at h
            exact mem_ensureImport _ _ _ x h
          · rw [if_neg hres] at h
            exact Or.inl h
        · exact Or.inr h
      · rw [if_neg hdi] at hx
        by_cases hres : r.needResolve
        · rw [if_pos hres] at hx
          exact mem_ensureImport _ _ _ x hx
        · rw [if_neg hres] at hx
          exact Or.inl hx

theorem mem_processClasses_imports (file : String) (ctx : TransformDI.DICtx)
    (cs : List TransformDI.DIClass) (x : ImportDecl)
    (hx : x ∈ (TransformDI.processClasses file ctx cs).1.imports) :
    x ∈ ctx.imports ∨ x.moduleSpecifier = "aurelia" := by
  induction cs generalizing ctx with
  | nil => exact Or.inl hx
  | cons c rest ih =>
    unfold TransformDI.processClasses at hx
    dsimp only at hx
    rcases ih (TransformDI.processClass file ctx c).1 hx with h | h
    · exact mem_processClass_imports file ctx c x h
    · exact Or.inr h

theorem mem_dropEmptyFor (file m : String) (l : List ImportDecl) (x : ImportDecl)
    (hx : x ∈ (TransformDI.dropEmptyFor file m l).1) : x ∈ l := by
  induction l with
  | nil => simp [TransformDI.dropEmptyFor] at hx
  | cons i rest ih =>
    unfold TransformDI.dropEmptyFor at hx
    dsimp only at hx
    by_cases hcond : i.moduleSpecifier = m ∧ i.namedImports = [] ∧
        i.defaultImport = none ∧ i.namespaceImport = none
    · rw [if_pos hcond] at hx
      exact List.mem_cons_of_mem i (ih hx)
    · rw [if_neg hcond] at hx
      rcases List.mem_cons.mp hx with h | h
      · exact h ▸ List.mem_cons_self i rest
      · exact List.mem_cons_of_mem i (ih h)

theorem mem_cleanupEmptyMods (file : String) (mods : List String)
    (l : List ImportDecl) (x : ImportDecl)
    (hx : x ∈ (TransformDI.cleanupEmptyMods file mods l).1) : x ∈ l := by
  induction mods generalizing l with
  | nil => exact hx
  | cons m rest ih =>
    unfold TransformDI.cleanupEmptyMods at hx
    dsimp only at hx
    exact mem_dropEmptyFor file m l x (ih _ hx)

theorem mem_removeNamedImports (l : List ImportDecl) (m : String) (ns : List String)
    (x : ImportDecl) (hx : x ∈ TransformDI.removeNamedImports l m ns) :
    (x.moduleSpecifier = m → ∀ ni ∈ x.namedImports, ns.contains ni.name = false) ∧
    (¬ x.moduleSpecifier = m → x ∈ l) := by
  unfold TransformDI.removeNamedImports at hx
  rcases List.mem_filterMap.mp hx with ⟨a, ha, hfa⟩
  by_cases hm : a.moduleSpecifier = m
  · rw [if_pos hm] at hfa
    unfold TransformDI.removeFromImport at hfa
    by_cases hcond : (a.namedImports.filter
        (fun ni => ¬ ns.contains ni.name)).length ≠ a.namedImports.length ∧
        a.namedImports.filter (fun ni => ¬ ns.contains ni.name) = [] ∧
        a.defaultImport = none ∧ a.namespaceImport = none
    · rw [if_pos hcond] at hfa
      exact absurd hfa (by simp)
    · rw [if_neg hcond] at hfa
      obtain rfl : ({ a with namedImports :=
          a.namedImports.filter (fun ni => ¬ ns.contains ni.name) } : ImportDecl) = x := by
        simpa using hfa
      constructor
      · intro _ ni hni
        have := (List.mem_filter.mp hni).2
        simpa using this
      · intro hxm
        exact absurd hm hxm
  · rw [if_neg hm] at hfa
    obtain rfl : a = x := by simpa using hfa
    constructor
    · intro hxm
      exact absurd hxm hm
    · intro _
      exact ha

theorem mem_removeNamedImports_nodrop (l : List ImportDecl) (m : String)
    (ns : List String) (x : ImportDecl) (hx : x ∈ TransformDI.removeNamedImports l m ns)
    (hempty : x.namedImports = []) (hd : x.defaultImport = none)
    (hns : x.namespaceImport = none) : x ∈ l := by
  unfold TransformDI.removeNamedImports at hx
  rcases List.mem_filterMap.mp hx with ⟨a, ha, hfa⟩
  by_cases hm : a.moduleSpecifier = m
  · rw [if_pos hm] at hfa
    unfold TransformDI.removeFromImport at hfa
    by_cases hcond : (a.namedImports.filter
        (fun ni => ¬ ns.contains ni.name)).length ≠ a.namedImports.length ∧
        a.namedImports.filter (fun ni => ¬ ns.contains ni.name) = [] ∧
        a.defaultImport = none ∧ a.namespaceImport = none
    · rw [if_pos hcond] at hfa
      exact absurd hfa (by simp)
    · rw [if_neg hcond] at hfa
      obtain rfl : ({ a with namedImports :=
          a.namedImports.filter (fun ni => ¬ ns.contains ni.name) } : ImportDecl) = x := by
        simpa using hfa
      have hfilter : a.namedImports.filter (fun ni => ¬ ns.contains ni.name) = [] := hempty
      have hlen : a.namedImports.length = 0 := by
        by_contra hne
        apply hcond
        refine ⟨?_, hfilter, hd, hns⟩
        rw [hfilter]
        simpa using fun hh => hne hh.symm
      have hanil : a.namedImports = [] := List.length_eq_zero.mp hlen
      have : ({ a with namedImports :=
          a.namedImports.filter (fun ni => ¬ ns.contains ni.name) } : ImportDecl) = a := by
        rw [hfilter]
        cases a
        simp_all
      rw [this]
      exact ha
  · rw [if_neg hm] at hfa
    obtain rfl : a = x := by simpa using hfa
    exact ha

/-- After the opening import-cleanup loop of `transformDI` (one
`removeNamedImports` call per v1 module), no v1-module import retains a
named `autoinject` binding. -/
theorem imports0_no_autoinject (l : List ImportDecl) (x : ImportDecl)
    (hx : x ∈ TransformDI.aureliaV1Modules.foldl
      (fun imps m => TransformDI.removeNamedImports imps m ["autoinject"]) l)
    (hmod : x.moduleSpecifier ∈ TransformDI.aureliaV1Modules) :
    ∀ ni ∈ x.namedImports, ¬ ni.name = "autoinject" := by
  simp only [TransformDI.aureliaV1Modules, List.foldl_cons, List.foldl_nil] at hx
  simp only [TransformDI.aureliaV1Modules, List.mem_cons, List.not_mem_nil,
    or_false] at hmod
  intro ni hni hname
  rcases hmod with h1 | h2 | h3
  · have hx2 := (mem_removeNamedImports _ _ _ x hx).2 (by rw [h1]; decide)
    have hx1 := (mem_removeNamedImports _ _ _ x hx2).2 (by rw [h1]; decide)
    have := (mem_removeNamedImports _ _ _ x hx1).1 h1 ni hni
    simp [hname] at this
  · have hx2 := (mem_removeNamedImports _ _ _ x hx).2 (by rw [h2]; decide)
    have := (mem_removeNamedImports _ _ _ x hx2).1 h2 ni hni
    simp [hname] at this
  · have := (mem_removeNamedImports _ _ _ x hx).1 h3 ni hni
    simp [hname] at this

/-- Any import surviving `transformDIFile` was already present after the
opening cleanup loop, or is an import of the `aurelia` module added by
`ensureImport`. -/
theorem mem_transformDIFile_imports (sf : TransformDI.DISourceFile) (x : ImportDecl)
    (hx : x ∈ (TransformDI.transformDIFile sf).1.imports) :
    x ∈ TransformDI.aureliaV1Modules.foldl
        (fun imps m => TransformDI.removeNamedImports imps m ["autoinject"]) sf.imports ∨
      x.moduleSpecifier = "aurelia" := by
  unfold TransformDI.transformDIFile at hx
  dsimp only at hx
  set ctx0 : TransformDI.DICtx :=
    { imports := TransformDI.aureliaV1Modules.foldl
        (fun imps m => TransformDI.removeNamedImports imps m ["autoinject"]) sf.imports,
      varStatements := sf.varStatements, entries := [], touched := false } with hctx0
  set pc := TransformDI.processClasses sf.path ctx0 sf.classes with hpc
  have hx1 : x ∈ pc.1.imports := by
    by_cases ht : pc.1.touched
    · rw [if_pos ht] at hx
      unfold TransformDI.cleanupEmptyV1 at hx
      exact mem_cleanupEmptyMods sf.path TransformDI.aureliaV1Modules pc.1.imports x hx
    · rw [if_neg ht] at hx
      exact hx
  have := mem_processClasses_imports sf.path ctx0 sf.classes x hx1
  simpa [hctx0] using this

/-- C10: `transformDI` removes the named import `autoinject` from every
v1-module import declaration in every file — whether or not any class
carries `@autoinject` — and an import statement whose only binding was
`autoinject` (no default or namespace binding) is dropped entirely and
never reappears. -/
theorem c10_autoinject_import_removal (sf : TransformDI.DISourceFile) :
    (∀ x ∈ (TransformDI.transformDIFile sf).1.imports,
      x.moduleSpecifier ∈ TransformDI.aureliaV1Modules →
      ∀ ni ∈ x.namedImports, ¬ ni.name = "autoinject") ∧
    (∀ (imp : ImportDecl) (b : NamedImport),
      imp ∈ sf.imports → imp.moduleSpecifier ∈ TransformDI.aureliaV1Modules →
      imp.namedImports = [b] → b.name = "autoinject" →
      imp.defaultImport = none → imp.namespaceImport = none →
      ({ imp with namedImports := [] } : ImportDecl) ∉ sf.imports →
      imp ∉ (TransformDI.transformDIFile sf).1.imports ∧
      ({ imp with namedImports := [] } : ImportDecl) ∉
        (TransformDI.transformDIFile sf).1.imports) := by
  have part1 : ∀ x ∈ (TransformDI.transformDIFile sf).1.imports,
      x.moduleSpecifier ∈ TransformDI.aureliaV1Modules →
      ∀ ni ∈ x.namedImports, ¬ ni.name = "autoinject" := by
    intro x hx hmod
    rcases mem_transformDIFile_imports sf x hx with h | h
    · exact imports0_no_autoinject sf.imports x h hmod
    · exfalso
      rw [h] at hmod
      exact absurd hmod (by decide)
  refine ⟨part1, ?_⟩
  intro imp b himp hmod hnamed hbname hd hns hemp
  constructor
  · intro hcon
    apply part1 imp hcon hmod b
    · rw [hnamed]
      exact List.mem_singleton.mpr rfl
    · exact hbname
  · intro hcon
    have hmod' : ({ imp with namedImports := [] } : ImportDecl).moduleSpecifier ∈
        TransformDI.aureliaV1Modules := hmod
    have hne : ¬ ({ imp with namedImports := [] } : ImportDecl).moduleSpecifier
        = "aurelia" := by
      intro heq
      have : "aurelia" ∈ TransformDI.aureliaV1Modules := heq ▸ hmod'
      exact absurd this (by decide)
    rcases mem_transformDIFile_imports sf _ hcon with h | h
    · simp only [TransformDI.aureliaV1Modules, List.foldl_cons, List.foldl_nil] at h
      have h2 := mem_removeNamedImports_nodrop _ _ _ _ h rfl hd hns
      have h1 := mem_removeNamedImports_nodrop _ _ _ _ h2 rfl hd hns
      have h0 := mem_removeNamedImports_nodrop _ _ _ _ h1 rfl hd hns
      exact hemp h0
    · exact hne h

/-- A file whose only use of the v1 API is `import { autoinject } from
'aurelia-framework'` — no class carries the decorator. -/
def c10File : TransformDI.DISourceFile :=
  { path := "plain.ts",
    imports := [{ moduleSpecifier := "aurelia-framework",
                  namedImports := [{ name := "autoinject", aliasName := none }],
                  defaultImport := none, namespaceImport := none }],
    varStatements := [],
    classes := [{ className := some "Plain", decorators := [], ctors := [],
                  properties := [] }] }

/-- C10 witness: the lone `autoinject` import of `c10File` is dropped even
though no class is decorated. -/
theorem c10_witness :
    ({ moduleSpecifier := "aurelia-framework",
       namedImports := [{ name := "autoinject", aliasName := none }],
       defaultImport := none, namespaceImport := none } : ImportDecl) ∉
      (TransformDI.transformDIFile c10File).1.imports ∧
    ({ moduleSpecifier := "aurelia-framework", namedImports := [],
       defaultImport := none, namespaceImport := none } : ImportDecl) ∉
      (TransformDI.transformDIFile c10File).1.imports := by
  have h := (c10_autoinject_import_removal c10File).2
    { moduleSpecifier := "aurelia-framework",
      namedImports := [{ name := "autoinject", aliasName := none }],
      defaultImport := none, namespaceImport := none }
    { name := "autoinject", aliasName := none }
    (by simp [c10File]) (by decide) rfl rfl rfl rfl (by simp [c10File])
  simpa using h

/-! ## Decorator expressions (shared by the computed and custom-element passes) -/

/-- A decorator argument: an object literal (whose properties the
custom-element pass inspects and extends) or any other expression,
carried as its source text. -/
inductive ArgExpr where
  | objLit (props : List (String × String))
  | plainArg (text : String)
deriving DecidableEq, Repr

/-- Render an object literal the way ts-morph prints one. -/
def renderObjProps (props : List (String × String)) : String :=
  "\x7b " ++ String.intercalate ", " (props.map (fun pr => pr.1 ++ ": " ++ pr.2)) ++ " \x7d"

/-- `arg.getText()`. -/
def ArgExpr.text : ArgExpr → String
  | ArgExpr.objLit props => renderObjProps props
  | ArgExpr.plainArg t => t

/-- The callee of a decorator expression: a bare identifier, a
property access `ns.member`, or anything else. -/
inductive CalleeExpr where
  | ident (name : String)
  | propAccess (target : String) (name : String)
  | otherExpr
deriving DecidableEq, Repr

/-- A decorator's expression: a call `@f(...)` or a plain `@f`. -/
inductive DecoratorExpr where
  | callExpr (callee : CalleeExpr) (args : List ArgExpr)
  | plainDeco (callee : CalleeExpr)
deriving DecidableEq, Repr

/-- The syntactic member a decorator is attached to, as classified by
`getFirstAncestorByKind` in transform-computed.ts. -/
inductive MemberKind where
  | getAccessor
  | methodDecl
  | propertyDecl
  | noMember
deriving DecidableEq, Repr

/-! ## @computedFrom pass (src/passes/transform-computed.ts) -/

namespace TransformComputed

def compV1Modules : List String := ["aurelia-binding", "aurelia-framework"]

/-- The local names bound to the `computedFrom` export (plain or aliased
named imports of the v1 modules). -/
def computedFromLocals (imports : List ImportDecl) : List String :=
  imports.foldl
    (fun acc imp =>
      if compV1Modules.contains imp.moduleSpecifier then
        acc ++ (imp.namedImports.filter (fun ni => ni.name = "computedFrom")).map
          NamedImport.localName
      else acc) []

/-- The namespace-import names of the v1 modules
(`import * as au from 'aurelia-framework'`). -/
def computedFromNamespaces (imports : List ImportDecl) : List String :=
  imports.foldl
    (fun acc imp =>
      if compV1Modules.contains imp.moduleSpecifier then
        acc ++ (match imp.namespaceImport with | some ns => [ns] | none => [])
      else acc) []

/-- The `isComputedFrom` test of the pass: a call whose callee is a local
name of `computedFrom`, or a property access `ns.computedFrom` with `ns` a
namespace import.  Non-call decorators are never matched
(`if (!Node.isCallExpression(expr)) continue`). -/
def matchedComputedFrom (locals namespaces : List String) : DecoratorExpr → Bool
  | DecoratorExpr.callExpr (CalleeExpr.ident n) _ => locals.contains n
  | DecoratorExpr.callExpr (CalleeExpr.propAccess t n) _ =>
      n == "computedFrom" && namespaces.contains t
  | _ => false

/-- A decorator occurrence with its attachment point. -/
structure CompDeco where
  expr : DecoratorExpr
  member : MemberKind
deriving DecidableEq, Repr

structure CompFile where
  path : String
  imports : List ImportDecl
  decos : List CompDeco
deriving DecidableEq, Repr

inductive DecoOutcome where
  | kept
  | removedDeco
  | replacedDeco (newExpr : DecoratorExpr)
deriving DecidableEq, Repr

/-- One decorator of the loop over `sf.getDescendantsOfKind(Decorator)`:
returns the outcome, the appended entries, and the `needComputedImport`
contribution. -/
def processCompDeco (file : String) (locals namespaces : List String) (d : CompDeco) :
    DecoOutcome × List ChangeEntry × Bool :=
  match d.expr with
  | DecoratorExpr.plainDeco _ => (DecoOutcome.kept, [], false)
  | DecoratorExpr.callExpr callee args =>
    if matchedComputedFrom locals namespaces (DecoratorExpr.callExpr callee args) then
      match d.member with
      | MemberKind.getAccessor =>
        match args with
        | [] => (DecoOutcome.removedDeco,
            [⟨file, ChangeKind.edit, "Removed @computedFrom decorator", none, none⟩,
             ⟨file, ChangeKind.warn,
              "Getter had @computedFrom with no dependencies. In v2, use @computed(...) with deps or remove the decorator.",
              none, none⟩], false)
        | _ :: _ =>
          (DecoOutcome.replacedDeco (DecoratorExpr.callExpr (CalleeExpr.ident "computed") args),
           [⟨file, ChangeKind.edit, "Replaced @computedFrom with @computed", none, none⟩],
           true)
      | MemberKind.methodDecl => (DecoOutcome.removedDeco,
          [⟨file, ChangeKind.edit, "Removed @computedFrom decorator", none, none⟩,
           ⟨file, ChangeKind.warn,
            "A method had @computedFrom. In v2, use a getter with @computed(...) or a plain getter for dependency tracking.",
            none, none⟩], false)
      | MemberKind.propertyDecl => (DecoOutcome.removedDeco,
          [⟨file, ChangeKind.edit, "Removed @computedFrom decorator", none, none⟩,
           ⟨file, ChangeKind.warn,
            "A property had @computedFrom. In v2, use a getter with @computed(...) or a plain getter for dependency tracking.",
            none, none⟩], false)
      | MemberKind.noMember => (DecoOutcome.removedDeco,
          [⟨file, ChangeKind.edit, "Removed @computedFrom decorator", none, none⟩,
           ⟨file, ChangeKind.warn,
            "Found @computedFrom in an unsupported location. In v2, use a getter with @computed(...) or a plain getter.",
            none, none⟩], false)
    else (DecoOutcome.kept, [], false)

def processCompDecos (file : String) (locals namespaces : List String) :
    List CompDeco → List CompDeco × List ChangeEntry × Bool
  | [] => ([], [], false)
  | d :: ds =>
    let r := processCompDeco file locals namespaces d
    let rest := processCompDecos file locals namespaces ds
    ((match r.1 with
      | DecoOutcome.kept => d :: rest.1
      | DecoOutcome.removedDeco => rest.1
      | DecoOutcome.replacedDeco e => { d with expr := e } :: rest.1),
     r.2.1 ++ rest.2.1,
     r.2.2 || rest.2.2)

/-- The `// Remove computedFrom from imports` loop: one `edit` entry per
changed import statement, dropping a statement left with no bindings. -/
def removeComputedFromImports (file : String) :
    List ImportDecl → List ImportDecl × List ChangeEntry
  | [] => ([], [])
  | i :: rest =>
    let r := removeComputedFromImports file rest
    if compV1Modules.contains i.moduleSpecifier ∧
        i.namedImports.any (fun ni => ni.name = "computedFrom") then
      let i' : ImportDecl :=
        { i with namedImports := i.namedImports.filter (fun ni => ¬ ni.name = "computedFrom") }
      if i'.namedImports = [] ∧ i.defaultImport = none ∧ i.namespaceImport = none then
        (r.1, ⟨file, ChangeKind.edit, "Removed computedFrom import", none, none⟩ :: r.2)
      else (i' :: r.1, ⟨file, ChangeKind.edit, "Removed computedFrom import", none, none⟩ :: r.2)
    else (i :: r.1, r.2)

/-- `ensureImport` as written in transform-computed.ts: also reports whether
anything was added (`false` when every requested name is already bound). -/
def addToFirstB (imports : List ImportDecl) (module : String) (names : List String) :
    Option (List ImportDecl × Bool) :=
  match imports with
  | [] => none
  | i :: rest =>
    if i.moduleSpecifier = module then
      if (names.filter (fun n => ¬ i.namedImports.any (fun ni => ni.name = n))) = [] then
        some (i :: rest, false)
      else some (TransformDI.addNames i names :: rest, true)
    else (addToFirstB rest module names).map (fun r => (i :: r.1, r.2))

def ensureImportChanged (imports : List ImportDecl) (module : String)
    (names : List String) : List ImportDecl × Bool :=
  match addToFirstB imports module names with
  | some r => r
  | none =>
    (imports ++ [{ moduleSpecifier := module,
                   namedImports := names.map (fun n => { name := n, aliasName := none }),
                   defaultImport := none, namespaceImport := none }], true)

/-- `transformComputed` restricted to one source file. -/
def transformComputedFile (sf : CompFile) : CompFile × List ChangeEntry :=
  let locals := computedFromLocals sf.imports
  let namespaces := computedFromNamespaces sf.imports
  let dres := processCompDecos sf.path locals namespaces sf.decos
  let ires := removeComputedFromImports sf.path sf.imports
  let fin :=
    if dres.2.2 then
      let e := ensureImportChanged ires.1 "aurelia" ["computed"]
      (e.1, if e.2 then
        [⟨sf.path, ChangeKind.add, "Added computed import from aurelia", none, none⟩]
        else [])
    else (ires.1, [])
  ({ path := sf.path, imports := fin.1, decos := dres.1 },
   dres.2.1 ++ ires.2 ++ fin.2)

/-- Number of named `computed` bindings on `aurelia`-module imports. -/
def computedImportCount : List ImportDecl → Nat
  | [] => 0
  | i :: rest =>
    (if i.moduleSpecifier = "aurelia" then
      i.namedImports.countP (fun ni => ni.name == "computed")
     else 0) + computedImportCount rest

/-- Number of import declarations of the `aurelia` module. -/
def aureliaImportCount (imports : List ImportDecl) : Nat :=
  imports.countP (fun i => i.moduleSpecifier == "aurelia")

end TransformComputed

/-! ## Claim C7 — @computedFrom on getters -/

theorem compV1_ne_aurelia (s : String)
    (h : TransformComputed.compV1Modules.contains s = true) : ¬ s = "aurelia" := by
  simp only [TransformComputed.compV1Modules, List.contains_cons,
    List.contains_nil, Bool.or_false, Bool.or_eq_true, beq_iff_eq] at h
  rcases h with h | h <;> (rw [h]; decide)

theorem aureliaZero_computedZero (l : List ImportDecl)
    (h : TransformComputed.aureliaImportCount l = 0) :
    TransformComputed.computedImportCount l = 0 := by
  induction l with
  | nil => rfl
  | cons i rest ih =>
    unfold TransformComputed.aureliaImportCount at h
    rw [List.countP_cons] at h
    unfold TransformComputed.computedImportCount
    by_cases hm : i.moduleSpecifier = "aurelia"
    · exfalso
      simp [hm] at h
    · rw [if_neg hm]
      have : TransformComputed.aureliaImportCount rest = 0 := by
        unfold TransformComputed.aureliaImportCount
        omega
      rw [ih this]

theorem computedImportCount_cons (i : ImportDecl) (rest : List ImportDecl) :
    TransformComputed.computedImportCount (i :: rest) =
      (if i.moduleSpecifier = "aurelia" then
        i.namedImports.countP (fun ni => ni.name == "computed")
       else 0) + TransformComputed.computedImportCount rest := rfl

theorem removeComputed_computedCount (file : String) (l : List ImportDecl) :
    TransformComputed.computedImportCount
      (TransformComputed.removeComputedFromImports file l).1 =
    TransformComputed.computedImportCount l := by
  induction l with
  | nil => rfl
  | cons i rest ih =>
    unfold TransformComputed.removeComputedFromImports
    dsimp only
    by_cases hc : TransformComputed.compV1Modules.contains i.moduleSpecifier ∧
        i.namedImports.any (fun ni => ni.name = "computedFrom")
    · rw [if_pos hc]
      have hne : ¬ i.moduleSpecifier = "aurelia" := compV1_ne_aurelia _ hc.1
      by_cases hdrop : (i.namedImports.filter (fun ni => ¬ ni.name = "computedFrom") = []) ∧
          i.defaultImport = none ∧ i.namespaceImport = none
      · rw [if_pos (by simpa using hdrop)]
        dsimp only
        rw [ih, computedImportCount_cons, if_neg hne]
        omega
      · rw [if_neg (by simpa using hdrop)]
        dsimp only
        rw [computedImportCount_cons, computedImportCount_cons, ih, if_neg hne, if_neg hne]
    · rw [if_neg hc]
      dsimp only
      rw [computedImportCount_cons, computedImportCount_cons, ih]

theorem removeComputed_aureliaCount (file : String) (l : List ImportDecl) :
    TransformComputed.aureliaImportCount
      (TransformComputed.removeComputedFromImports file l).1 =
    TransformComputed.aureliaImportCount l := by
  induction l with
  | nil => rfl
  | cons i rest ih =>
    unfold TransformComputed.removeComputedFromImports
    dsimp only
    by_cases hc : TransformComputed.compV1Modules.contains i.moduleSpecifier ∧
        i.namedImports.any (fun ni => ni.name = "computedFrom")
    · rw [if_pos hc]
      have hne : ¬ i.moduleSpecifier = "aurelia" := compV1_ne_aurelia _ hc.1
      by_cases hdrop : (i.namedImports.filter (fun ni => ¬ ni.name = "computedFrom") = []) ∧
          i.defaultImport = none ∧ i.namespaceImport = none
      · rw [if_pos (by simpa using hdrop)]
        dsimp only
        unfold TransformComputed.aureliaImportCount at ih ⊢
        rw [List.countP_cons, ih]
        simp [hne]
      · rw [if_neg (by simpa using hdrop)]
        dsimp only
        unfold TransformComputed.aureliaImportCount at ih ⊢
        rw [List.countP_cons, List.countP_cons, ih]
    · rw [if_neg hc]
      dsimp only
      unfold TransformComputed.aureliaImportCount at ih ⊢
      rw [List.countP_cons, List.countP_cons, ih]

theorem ensureImportChanged_cons_ne (i : ImportDecl) (rest : List ImportDecl)
    (m : String) (names : List String) (hm : ¬ i.moduleSpecifier = m) :
    (TransformComputed.ensureImportChanged (i :: rest) m names).1 =
      i :: (TransformComputed.ensureImportChanged rest m names).1 := by
  have hstep : TransformComputed.addToFirstB (i :: rest) m names =
      (TransformComputed.addToFirstB rest m names).map (fun r => (i :: r.1, r.2)) := by
    show (if i.moduleSpecifier = m then
        if (names.filter (fun n => ¬ i.namedImports.any (fun ni => ni.name = n))) = [] then
          some (i :: rest, false)
        else some (TransformDI.addNames i names :: rest, true)
      else (TransformComputed.addToFirstB rest m names).map (fun r => (i :: r.1, r.2))) =
      (TransformComputed.addToFirstB rest m names).map (fun r => (i :: r.1, r.2))
    rw [if_neg hm]
  unfold TransformComputed.ensureImportChanged
  rw [hstep]
  cases h : TransformComputed.addToFirstB rest m names with
  | some r => simp
  | none => simp

theorem ensureImportChanged_cons_eq (i : ImportDecl) (rest : List ImportDecl)
    (m : String) (names : List String) (hm : i.moduleSpecifier = m) :
    TransformComputed.ensureImportChanged (i :: rest) m names =
      (if (names.filter (fun n => ¬ i.namedImports.any (fun ni => ni.name = n))) = [] then
        (i :: rest, false)
      else (TransformDI.addNames i names :: rest, true)) := by
  have hstep : TransformComputed.addToFirstB (i :: rest) m names =
      (if (names.filter (fun n => ¬ i.namedImports.any (fun ni => ni.name = n))) = [] then
        some (i :: rest, false)
      else some (TransformDI.addNames i names :: rest, true)) := by
    show (if i.moduleSpecifier = m then
        if (names.filter (fun n => ¬ i.namedImports.any (fun ni => ni.name = n))) = [] then
          some (i :: rest, false)
        else some (TransformDI.addNames i names :: rest, true)
      else (TransformComputed.addToFirstB rest m names).map (fun r => (i :: r.1, r.2))) = _
    rw [if_pos hm]
  unfold TransformComputed.ensureImportChanged
  rw [hstep]
  by_cases hadd : (names.filter (fun n => ¬ i.namedImports.any (fun ni => ni.name = n))) = []
  · rw [if_pos hadd, if_pos hadd]
  · rw [if_neg hadd, if_neg hadd]

theorem ensure_computed_count_le (l : List ImportDecl)
    (ha : TransformComputed.aureliaImportCount l ≤ 1)
    (hc : TransformComputed.computedImportCount l ≤ 1) :
    TransformComputed.computedImportCount
      (TransformComputed.ensureImportChanged l "aurelia" ["computed"]).1 ≤ 1 := by
  induction l with
  | nil => decide
  | cons i rest ih =>
    by_cases hm : i.moduleSpecifier = "aurelia"
    · rw [ensureImportChanged_cons_eq i rest _ _ hm]
      by_cases hadd : (["computed"].filter
          (fun n => ¬ i.namedImports.any (fun ni => ni.name = n))) = []
      · rw [if_pos hadd]
        exact hc
      · rw [if_neg hadd]
        dsimp only
        have hmissing : ¬ i.namedImports.any (fun ni => ni.name = "computed") := by
          intro hany
          apply hadd
          simp only [List.filter_eq_nil_iff]
          intro n hn
          simp only [List.mem_singleton] at hn
          subst hn
          simp [hany]
        have hcnt : i.namedImports.countP (fun ni => ni.name == "computed") = 0 := by
          rw [List.countP_eq_zero]
          intro ni hni
          simp only [beq_iff_eq]
          intro hcontra
          apply hmissing
          rw [List.any_eq_true]
          exact ⟨ni, hni, by simp [hcontra]⟩
        have hrest0 : TransformComputed.computedImportCount rest = 0 := by
          apply aureliaZero_computedZero
          have hcount : TransformComputed.aureliaImportCount (i :: rest) =
              TransformComputed.aureliaImportCount rest + 1 := by
            unfold TransformComputed.aureliaImportCount
            rw [List.countP_cons]
            simp [hm]
          omega
        rw [computedImportCount_cons, hrest0,
          if_pos (show (TransformDI.addNames i ["computed"]).moduleSpecifier = "aurelia" from hm)]
        unfold TransformDI.addNames
        dsimp only
        rw [List.countP_append, hcnt]
        cases hf : ["computed"].filter
            (fun n => ¬ i.namedImports.any (fun ni => ni.name = n)) with
        | nil => simp
        | cons x xs =>
          have hsub : (x :: xs).Sublist ["computed"] := by
            rw [← hf]
            exact List.filter_sublist _
          have hxeq : x = "computed" ∧ xs = [] := by
            have hlen : xs.length + 1 ≤ 1 := by simpa using hsub.length_le
            have hxs : xs = [] := by
              cases xs with
              | nil => rfl
              | cons y ys => simp at hlen
            have hmem : x ∈ ["computed"] := hsub.subset (by simp)
            simp only [List.mem_singleton] at hmem
            exact ⟨hmem, hxs⟩
          rw [hxeq.1, hxeq.2]
          simp
    · rw [ensureImportChanged_cons_ne i rest _ _ hm, computedImportCount_cons, if_neg hm]
      have ha' : TransformComputed.aureliaImportCount rest ≤ 1 := by
        unfold TransformComputed.aureliaImportCount at ha ⊢
        rw [List.countP_cons] at ha
        omega
      have hc' : TransformComputed.computedImportCount rest ≤ 1 := by
        rw [computedImportCount_cons] at hc
        omega
      have := ih ha' hc'
      omega

theorem ensure_computed_count_ge (l : List ImportDecl) :
    1 ≤ TransformComputed.computedImportCount
      (TransformComputed.ensureImportChanged l "aurelia" ["computed"]).1 := by
  induction l with
  | nil => decide
  | cons i rest ih =>
    by_cases hm : i.moduleSpecifier = "aurelia"
    · rw [ensureImportChanged_cons_eq i rest _ _ hm]
      by_cases hadd : (["computed"].filter
          (fun n => ¬ i.namedImports.any (fun ni => ni.name = n))) = []
      · rw [if_pos hadd]
        dsimp only
        have hpresent : i.namedImports.any (fun ni => ni.name = "computed") := by
          by_contra hno
          have : "computed" ∈ ["computed"].filter
              (fun n => ¬ i.namedImports.any (fun ni => ni.name = n)) :=
            List.mem_filter.mpr ⟨by simp, by simpa using hno⟩
          rw [hadd] at this
          exact absurd this (List.not_mem_nil _)
        have hpos : 0 < i.namedImports.countP (fun ni => ni.name == "computed") := by
          rw [List.countP_pos_iff]
          rcases List.any_eq_true.mp hpresent with ⟨ni, hni, hname⟩
          exact ⟨ni, hni, by simpa using hname⟩
        rw [computedImportCount_cons, if_pos hm]
        omega
      · rw [if_neg hadd]
        dsimp only
        rw [computedImportCount_cons,
          if_pos (show (TransformDI.addNames i ["computed"]).moduleSpecifier = "aurelia" from hm)]
        unfold TransformDI.addNames
        dsimp only
        rw [List.countP_append]
        cases hf : ["computed"].filter
            (fun n => ¬ i.namedImports.any (fun ni => ni.name = n)) with
        | nil => exact absurd hf hadd
        | cons x xs =>
          have hsub : (x :: xs).Sublist ["computed"] := by
            rw [← hf]
            exact List.filter_sublist _
          have hlen : xs.length + 1 ≤ 1 := by simpa using hsub.length_le
          have hxs : xs = [] := by
            cases xs with
            | nil => rfl
            | cons y ys => simp at hlen
          have hmem : x ∈ ["computed"] := hsub.subset (by simp)
          simp only [List.mem_singleton] at hmem
          rw [hmem, hxs]
          simp only [List.map_cons, List.map_nil, List.countP_cons]
          simp
          omega
    · rw [ensureImportChanged_cons_ne i rest _ _ hm, computedImportCount_cons, if_neg hm]
      omega

/-- C7: a getter-attached decorator that the pass matches as
`@computedFrom` (plain local name, alias, or namespace qualification) and
that carries at least one argument is replaced by `@computed` carrying the
identical argument list; with zero arguments the decorator is removed and a
warning logged; and with at most one `aurelia` import statement in the
file, the pass leaves at most one named `computed` binding per file, and at
least one whenever a getter was upgraded. -/
theorem c7_computed_getter_rewrite (sf : TransformComputed.CompFile)
    (ha : TransformComputed.aureliaImportCount sf.imports ≤ 1)
    (hc : TransformComputed.computedImportCount sf.imports ≤ 1) :
    (∀ (callee : CalleeExpr) (a : ArgExpr) (args : List ArgExpr),
      TransformComputed.matchedComputedFrom
        (TransformComputed.computedFromLocals sf.imports)
        (TransformComputed.computedFromNamespaces sf.imports)
        (DecoratorExpr.callExpr callee (a :: args)) = true →
      TransformComputed.processCompDeco sf.path
        (TransformComputed.computedFromLocals sf.imports)
        (TransformComputed.computedFromNamespaces sf.imports)
        ⟨DecoratorExpr.callExpr callee (a :: args), MemberKind.getAccessor⟩ =
        (TransformComputed.DecoOutcome.replacedDeco
            (DecoratorExpr.callExpr (CalleeExpr.ident "computed") (a :: args)),
         [⟨sf.path, ChangeKind.edit, "Replaced @computedFrom with @computed", none, none⟩],
         true)) ∧
    (∀ (callee : CalleeExpr),
      TransformComputed.matchedComputedFrom
        (TransformComputed.computedFromLocals sf.imports)
        (TransformComputed.computedFromNamespaces sf.imports)
        (DecoratorExpr.callExpr callee []) = true →
      TransformComputed.processCompDeco sf.path
        (TransformComputed.computedFromLocals sf.imports)
        (TransformComputed.computedFromNamespaces sf.imports)
        ⟨DecoratorExpr.callExpr callee [], MemberKind.getAccessor⟩ =
        (TransformComputed.DecoOutcome.removedDeco,
         [⟨sf.path, ChangeKind.edit, "Removed @computedFrom decorator", none, none⟩,
          ⟨sf.path, ChangeKind.warn,
           "Getter had @computedFrom with no dependencies. In v2, use @computed(...) with deps or remove the decorator.",
           none, none⟩],
         false)) ∧
    TransformComputed.computedImportCount
      (TransformComputed.transformComputedFile sf).1.imports ≤ 1 ∧
    ((TransformComputed.processCompDecos sf.path
        (TransformComputed.computedFromLocals sf.imports)
        (TransformComputed.computedFromNamespaces sf.imports) sf.decos).2.2 = true →
      1 ≤ TransformComputed.computedImportCount
        (TransformComputed.transformComputedFile sf).1.imports) := by
  refine ⟨?_, ?_, ?_, ?_⟩
  · intro callee a args hmatch
    unfold TransformComputed.processCompDeco
    dsimp only
    rw [if_pos hmatch]
  · intro callee hmatch
    unfold TransformComputed.processCompDeco
    dsimp only
    rw [if_pos hmatch]
  · unfold TransformComputed.transformComputedFile
    dsimp only
    by_cases hneed : (TransformComputed.processCompDecos sf.path
        (TransformComputed.computedFromLocals sf.imports)
        (TransformComputed.computedFromNamespaces sf.imports) sf.decos).2.2
    · rw [if_pos hneed]
      dsimp only
      apply ensure_computed_count_le
      · rw [removeComputed_aureliaCount]
        exact ha
      · rw [removeComputed_computedCount]
        exact hc
    · rw [if_neg hneed]
      dsimp only
      rw [removeComputed_computedCount]
      exact hc
  · intro hneed
    unfold TransformComputed.transformComputedFile
    dsimp only
    rw [if_pos hneed]
    dsimp only
    exact ensure_computed_count_ge _

/-- A file importing `computedFrom` from `aurelia-binding`, with one
two-argument `@computedFrom` on a getter. -/
def c7File : TransformComputed.CompFile :=
  { path := "person.ts",
    imports := [{ moduleSpecifier := "aurelia-binding",
                  namedImports := [{ name := "computedFrom", aliasName := none }],
                  defaultImport := none, namespaceImport := none }],
    decos := [{ expr := DecoratorExpr.callExpr (CalleeExpr.ident "computedFrom")
                  [ArgExpr.plainArg "'firstName'", ArgExpr.plainArg "'lastName'"],
                member := MemberKind.getAccessor }] }

/-- C7 witness: the two-argument getter decorator of `c7File` is replaced
by `@computed` with the same two arguments, and the rewritten file has at
most one `computed` import binding. -/
theorem c7_witness :
    TransformComputed.processCompDeco "person.ts"
      (TransformComputed.computedFromLocals c7File.imports)
      (TransformComputed.computedFromNamespaces c7File.imports)
      { expr := DecoratorExpr.callExpr (CalleeExpr.ident "computedFrom")
          [ArgExpr.plainArg "'firstName'", ArgExpr.plainArg "'lastName'"],
        member := MemberKind.getAccessor } =
      (TransformComputed.DecoOutcome.replacedDeco
          (DecoratorExpr.callExpr (CalleeExpr.ident "computed")
            [ArgExpr.plainArg "'firstName'", ArgExpr.plainArg "'lastName'"]),
       [⟨"person.ts", ChangeKind.edit, "Replaced @computedFrom with @computed", none, none⟩],
       true) ∧
    TransformComputed.computedImportCount
      (TransformComputed.transformComputedFile c7File).1.imports ≤ 1 := by
  have h := c7_computed_getter_rewrite c7File (by decide) (by decide)
  exact ⟨h.1 (CalleeExpr.ident "computedFrom") (ArgExpr.plainArg "'firstName'")
    [ArgExpr.plainArg "'lastName'"] (by decide), h.2.2.1⟩

/-! ## PLATFORM.moduleName pass (transformPlatform in transform-templates.ts) -/

namespace TransformPlatform

/-- A call expression as the pass sees it: its callee and argument texts. -/
structure PCall where
  callee : CalleeExpr
  args : List String
deriving DecidableEq, Repr

/-- `isPlatformModuleNameCall`: a property access `PLATFORM.moduleName`. -/
def isPlatformModuleNameCall (c : PCall) : Bool :=
  match c.callee with
  | CalleeExpr.propAccess t n => t == "PLATFORM" && n == "moduleName"
  | _ => false

/-- A call after the pass: untouched, or replaced by an expression text. -/
inductive PCallResult where
  | untouchedCall (c : PCall)
  | replacedText (t : String)
deriving DecidableEq, Repr

/-- One call of the loop: `(result, entries, removed-a-call)`. -/
def processPlatformCall (file : String) (c : PCall) :
    PCallResult × List ChangeEntry × Bool :=
  if isPlatformModuleNameCall c then
    match c.args with
    | [t] =>
      (PCallResult.replacedText t,
       [⟨file, ChangeKind.edit, "Removed PLATFORM.moduleName() call",
         some ("PLATFORM.moduleName(" ++ t ++ ")"), some t⟩], true)
    | _ =>
      (PCallResult.untouchedCall c,
       [⟨file, ChangeKind.warn,
         "PLATFORM.moduleName() call with " ++ toString c.args.length
           ++ " arguments needs manual review", none, none⟩], false)
  else (PCallResult.untouchedCall c, [], false)

/-- All calls, in document order; the `Nat` is `platformCallsRemoved`. -/
def processPlatformCalls (file : String) :
    List PCall → List PCallResult × List ChangeEntry × Nat
  | [] => ([], [], 0)
  | c :: cs =>
    let r := processPlatformCall file c
    let rest := processPlatformCalls file cs
    (r.1 :: rest.1, r.2.1 ++ rest.2.1, (if r.2.2 then 1 else 0) + rest.2.2)

/-- A file for this pass: its call expressions in descendant order, its
imports, and the number of `PLATFORM.` occurrences in the raw text outside
those call expressions (the pass re-scans the whole text with
`/\bPLATFORM\./g` after rewriting). -/
structure PFile where
  path : String
  imports : List ImportDecl
  calls : List PCall
  otherPlatformRefs : Nat
deriving DecidableEq, Repr

/-- Whether a surviving call's own text still contains `PLATFORM.`. -/
def pcallHasPlatformRef (c : PCall) : Bool :=
  (match c.callee with
   | CalleeExpr.propAccess t _ => t == "PLATFORM" || containsSubstr t "PLATFORM."
   | CalleeExpr.ident n => containsSubstr n "PLATFORM."
   | CalleeExpr.otherExpr => false) ||
  c.args.any (fun a => containsSubstr a "PLATFORM.")

def renderNamed (ni : NamedImport) : String :=
  match ni.aliasName with
  | some a => ni.name ++ " as " ++ a
  | none => ni.name

/-- Approximation of `imp.getText()` for the `before` snippet of the
removal entry. -/
def renderImport (imp : ImportDecl) : String :=
  "import \x7b " ++ String.intercalate ", " (imp.namedImports.map renderNamed)
    ++ " \x7d from '" ++ imp.moduleSpecifier ++ "'"

/-- The body of `removePlatformImportsIfUnused` for one module: drop the
`PLATFORM` named import (one `edit` entry per removed binding) and the
whole statement when it becomes empty (a `remove` entry carrying the
statement text after the binding removals). -/
def removePlatformFromModule (file mod : String) :
    List ImportDecl → List ImportDecl × List ChangeEntry
  | [] => ([], [])
  | i :: rest =>
    let r := removePlatformFromModule file mod rest
    if i.moduleSpecifier = mod then
      if i.namedImports.any (fun ni => ni.name = "PLATFORM") then
        let entries1 : List ChangeEntry :=
          (i.namedImports.filter (fun ni => ni.name = "PLATFORM")).map
            (fun _ => ⟨file, ChangeKind.edit,
              "Removed unused PLATFORM import from " ++ mod, none, none⟩)
        let i' : ImportDecl :=
          { i with namedImports := i.namedImports.filter (fun ni => ¬ ni.name = "PLATFORM") }
        if i'.namedImports = [] ∧ i.defaultImport = none ∧ i.namespaceImport = none then
          (r.1, entries1 ++
            [⟨file, ChangeKind.remove, "Removed empty import declaration for " ++ mod,
              some (renderImport i'), none⟩] ++ r.2)
        else (i' :: r.1, entries1 ++ r.2)
      else (i :: r.1, r.2)
    else (i :: r.1, r.2)

def removePlatformFromModules (file : String) (mods : List String)
    (imports : List ImportDecl) : List ImportDecl × List ChangeEntry :=
  match mods with
  | [] => (imports, [])
  | m :: rest =>
    let r1 := removePlatformFromModule file m imports
    let r2 := removePlatformFromModules file rest r1.1
    (r2.1, r1.2 ++ r2.2)

structure PFileResult where
  calls : List PCallResult
  imports : List ImportDecl
  entries : List ChangeEntry
deriving DecidableEq, Repr

/-- `transformPlatform` restricted to one source file. -/
def transformPlatformFile (sf : PFile) : PFileResult :=
  let res := processPlatformCalls sf.path sf.calls
  if 0 < res.2.2 then
    let refsRemain := (0 < sf.otherPlatformRefs) ||
      res.1.any (fun r =>
        match r with
        | PCallResult.untouchedCall c => pcallHasPlatformRef c
        | PCallResult.replacedText t => containsSubstr t "PLATFORM.")
    let ir := if refsRemain then (sf.imports, [])
      else removePlatformFromModules sf.path ["aurelia-pal", "aurelia-framework"] sf.imports
    { calls := res.1, imports := ir.1,
      entries := res.2.1 ++ ir.2 ++
        [⟨sf.path, ChangeKind.edit,
          "Removed " ++ toString res.2.2 ++ " PLATFORM.moduleName() call"
            ++ (if res.2.2 = 1 then "" else "s"), none, none⟩] }
  else { calls := res.1, imports := sf.imports, entries := res.2.1 }

end TransformPlatform

/-! ## Claim C8 — PLATFORM.moduleName argument counts -/

theorem processPlatformCalls_map (file : String) (cs : List TransformPlatform.PCall) :
    (TransformPlatform.processPlatformCalls file cs).1 =
      cs.map (fun c => (TransformPlatform.processPlatformCall file c).1) := by
  induction cs with
  | nil => rfl
  | cons c rest ih =>
    unfold TransformPlatform.processPlatformCalls
    dsimp only
    rw [ih, List.map_cons]

/-- C8: a `PLATFORM.moduleName(...)` call with argument count ≠ 1 is left
untouched and contributes exactly one warning whose message states the
argument count; a call with exactly one argument is replaced by its
argument expression text verbatim.  At the file level the i-th call's
outcome is exactly `processPlatformCall` of the i-th call. -/
theorem c8_platform_call_arity (file : String) (c : TransformPlatform.PCall)
    (pf : TransformPlatform.PFile)
    (hp : TransformPlatform.isPlatformModuleNameCall c = true) :
    (¬ c.args.length = 1 →
      TransformPlatform.processPlatformCall file c =
        (TransformPlatform.PCallResult.untouchedCall c,
         [⟨file, ChangeKind.warn,
           "PLATFORM.moduleName() call with " ++ toString c.args.length
             ++ " arguments needs manual review", none, none⟩], false)) ∧
    (∀ a, c.args = [a] →
      TransformPlatform.processPlatformCall file c =
        (TransformPlatform.PCallResult.replacedText a,
         [⟨file, ChangeKind.edit, "Removed PLATFORM.moduleName() call",
           some ("PLATFORM.moduleName(" ++ a ++ ")"), some a⟩], true)) ∧
    (TransformPlatform.transformPlatformFile pf).calls =
      pf.calls.map (fun x => (TransformPlatform.processPlatformCall pf.path x).1) := by
  refine ⟨?_, ?_, ?_⟩
  · intro hlen
    unfold TransformPlatform.processPlatformCall
    rw [if_pos hp]
    match hargs : c.args with
    | [] => rfl
    | [a] =>
      exfalso
      apply hlen
      rw [hargs]
      rfl
    | a :: b :: rest => rfl
  · intro a hargs
    unfold TransformPlatform.processPlatformCall
    rw [if_pos hp, hargs]
  · unfold TransformPlatform.transformPlatformFile
    dsimp only
    by_cases ht : 0 < (TransformPlatform.processPlatformCalls pf.path pf.calls).2.2
    · rw [if_pos ht]
      dsimp only
      exact processPlatformCalls_map pf.path pf.calls
    · rw [if_neg ht]
      exact processPlatformCalls_map pf.path pf.calls

/-- C8 witness: a two-argument `PLATFORM.moduleName` call is untouched with
the single warning naming "2 arguments"; a one-argument call is replaced by
its argument text. -/
theorem c8_witness :
    TransformPlatform.processPlatformCall "main.ts"
      { callee := CalleeExpr.propAccess "PLATFORM" "moduleName",
        args := ["'./app'", "'extra'"] } =
      (TransformPlatform.PCallResult.untouchedCall
        { callee := CalleeExpr.propAccess "PLATFORM" "moduleName",
          args := ["'./app'", "'extra'"] },
       [⟨"main.ts", ChangeKind.warn,
         "PLATFORM.moduleName() call with 2 arguments needs manual review", none, none⟩],
       false) ∧
    TransformPlatform.processPlatformCall "main.ts"
      { callee := CalleeExpr.propAccess "PLATFORM" "moduleName",
        args := ["'./app'"] } =
      (TransformPlatform.PCallResult.replacedText "'./app'",
       [⟨"main.ts", ChangeKind.edit, "Removed PLATFORM.moduleName() call",
         some ("PLATFORM.moduleName('./app')"), some "'./app'"⟩], true) := by
  constructor
  · have h := (c8_platform_call_arity "main.ts"
      { callee := CalleeExpr.propAccess "PLATFORM" "moduleName",
        args := ["'./app'", "'extra'"] }
      { path := "main.ts", imports := [], calls := [], otherPlatformRefs := 0 }
      (by decide)).1 (by decide)
    simpa using h
  · have h := (c8_platform_call_arity "main.ts"
      { callee := CalleeExpr.propAccess "PLATFORM" "moduleName",
        args := ["'./app'"] }
      { path := "main.ts", imports := [], calls := [], otherPlatformRefs := 0 }
      (by decide)).2.1 "'./app'" rfl
    simpa using h

/-! ## Markup rewriter (transformTemplates in transform-templates.ts) -/

namespace TransformTemplates

structure MarkupAttr where
  name : String
  value : String
deriving DecidableEq, Repr

/-- A parse5 node: an element (with `childNodes` and, for `<template>`
containers, a secondary `content` subtree) or any non-element node. -/
inductive MarkupNode where
  | element (tagName : String) (attrs : List MarkupAttr)
      (children : List MarkupNode) (content : List MarkupNode)
  | textNode (s : String)

/-- `isInsideForm` — the source deliberately returns `true` for every
element ("Conservative approach - warn about all button clicks"). -/
def isInsideForm (_tagName : String) : Bool := true

/-- `isPotentiallyProblematicEvent`, over the element's current tag name
and attribute list. -/
def isPotentiallyProblematicEvent (tag : String) (attrs : List MarkupAttr)
    (eventName : String) (_eventValue : String) : Bool :=
  let tagName := tag.toLower
  if eventName == "click" && tagName == "button" &&
      (((attrs.find? (fun x => x.name == "type")).map
          (fun t => t.value == "submit")).getD false
        || isInsideForm tagName) then true
  else if eventName == "submit" && tagName == "form" then true
  else if eventName == "click" && tagName == "a" &&
      (match attrs.find? (fun x => x.name == "href") with
       | some h => h.value != "" && !(h.value.startsWith ("javascript:"))
       | none => false) then true
  else if eventName == "keydown" || eventName == "keyup" || eventName == "keypress" then
    true
  else false

/-- `name.slice(0, -n)`. -/
def dropSuffixLen (s : String) (n : Nat) : String :=
  String.mk (s.toList.take (s.toList.length - n))

structure AttrStepOut where
  attr : MarkupAttr
  edits : Nat
  entries : List ChangeEntry
deriving DecidableEq, Repr

/-- The three attribute rewrites of the per-attribute loop
(`.delegate` → `.trigger`, `view-model.ref` → `component.ref`,
`.call` → `.bind` with lambda wrapping). -/
def attrStep (file : String) (a : MarkupAttr) : AttrStepOut :=
  let s1 : AttrStepOut :=
    if a.name.endsWith (".delegate") then
      { attr := { a with name := replaceFirst a.name (".delegate") (".trigger") },
        edits := 1,
        entries := [⟨file, ChangeKind.edit, "*.delegate -> *.trigger", none, none⟩] }
    else { attr := a, edits := 0, entries := [] }
  let s2 : AttrStepOut :=
    if s1.attr.name == "view-model.ref" then
      { attr := { s1.attr with name := "component.ref" },
        edits := s1.edits + 1,
        entries := s1.entries ++
          [⟨file, ChangeKind.edit, "view-model.ref -> component.ref", none, none⟩] }
    else s1
  if s2.attr.name.endsWith (".call") then
    let base := dropSuffixLen s2.attr.name 5
    let value := s2.attr.value.trim
    if containsSubstr value ("=>") then
      { attr := { s2.attr with name := base ++ ".bind" },
        edits := s2.edits + 1,
        entries := s2.entries ++
          [⟨file, ChangeKind.edit, "*.call -> *.bind (kept existing arrow function)",
            none, none⟩] }
    else
      { attr := { name := base ++ ".bind", value := "($event) => " ++ value },
        edits := s2.edits + 1,
        entries := s2.entries ++
          [⟨file, ChangeKind.edit, "*.call -> *.bind with lambda wrapper", none, none⟩] }
  else s2

/-- The trailing `:prevent` heuristic check of the loop, against the
element's attribute list as mutated so far. -/
def warnStep (file tag : String) (attrs : List MarkupAttr) (a : MarkupAttr) :
    Nat × List ChangeEntry :=
  if a.name.endsWith (".trigger") || a.name.endsWith (".delegate") then
    let eventName := takeBeforeDot a.name
    if isPotentiallyProblematicEvent tag attrs eventName a.value then
      (1, [⟨file, ChangeKind.warn,
        "Event handler '" ++ a.name ++ "=\"" ++ a.value
          ++ "\"' may need :prevent modifier in Aurelia 2. In v1, preventDefault was called automatically, but not in v2. Consider '"
          ++ eventName ++ ".trigger:prevent' if needed.", none, none⟩])
    else (0, [])
  else (0, [])

structure AttrsOut where
  attrs : List MarkupAttr
  edits : Nat
  warns : Nat
  entries : List ChangeEntry
deriving DecidableEq, Repr

/-- The `for (const a of node.attrs)` loop: the array is mutated in place,
so each iteration sees the updates of the previous ones. -/
def processAttrs (file tag : String) :
    Nat → List MarkupAttr → Nat → AttrsOut
  | 0, attrs, _ => { attrs := attrs, edits := 0, warns := 0, entries := [] }
  | fuel + 1, attrs, i =>
    match attrs[i]? with
    | none => { attrs := attrs, edits := 0, warns := 0, entries := [] }
    | some a =>
      let s := attrStep file a
      let attrs1 := attrs.set i s.attr
      let w := warnStep file tag attrs1 s.attr
      let rest := processAttrs file tag fuel attrs1 (i + 1)
      { attrs := rest.attrs, edits := s.edits + rest.edits,
        warns := w.1 + rest.warns,
        entries := s.entries ++ w.2 ++ rest.entries }

/-- The `<compose>` attribute renames (`view` → `template`,
`view-model` → `component`). -/
def composeAttrRename (a : MarkupAttr) : MarkupAttr :=
  let a1 := if a.name == "view" then { a with name := "template" } else a
  if a1.name == "view-model" then { a1 with name := "component" } else a1

structure TagStepOut where
  tag : String
  attrs : List MarkupAttr
  edits : Nat
  entries : List ChangeEntry
deriving DecidableEq, Repr

/-- The tag transforms (`<require>`, `<router-view>`, `<compose>`). -/
def tagStep (file tag : String) (attrs : List MarkupAttr) : TagStepOut :=
  let s1 : TagStepOut :=
    if tag == "require" then
      { tag := "import", attrs := attrs, edits := 1,
        entries := [⟨file, ChangeKind.edit, "<require> -> <import>", none, none⟩] }
    else { tag := tag, attrs := attrs, edits := 0, entries := [] }
  let s2 : TagStepOut :=
    if s1.tag == "router-view" then
      { tag := "au-viewport",
        attrs := s1.attrs,
        edits := s1.edits + 1,
        entries := s1.entries ++
          [⟨file, ChangeKind.edit, "<router-view> -> <au-viewport>", none, none⟩] }
    else s1
  if s2.tag == "compose" then
    { tag := "au-compose", attrs := s2.attrs.map composeAttrRename,
      edits := s2.edits + 1,
      entries := s2.entries ++
        [⟨file, ChangeKind.edit, "<compose> -> <au-compose>", none, none⟩] }
  else s2

structure VisitOut where
  node : MarkupNode
  edits : Nat
  warns : Nat
  entries : List ChangeEntry

structure VisitListOut where
  nodes : List MarkupNode
  edits : Nat
  warns : Nat
  entries : List ChangeEntry

mutual

/-- `visit(node)`: tag transforms, then the attribute loop, then recursion
into `childNodes` and the `content` subtree. -/
def visitNode (file : String) : MarkupNode → VisitOut
  | MarkupNode.textNode s => { node := MarkupNode.textNode s, edits := 0, warns := 0, entries := [] }
  | MarkupNode.element tag attrs children content =>
    let ts := tagStep file tag attrs
    let ar := processAttrs file ts.tag ts.attrs.length ts.attrs 0
    let ch := visitList file children
    let ct := visitList file content
    { node := MarkupNode.element ts.tag ar.attrs ch.nodes ct.nodes,
      edits := ts.edits + ar.edits + ch.edits + ct.edits,
      warns := ar.warns + ch.warns + ct.warns,
      entries := ts.entries ++ ar.entries ++ ch.entries ++ ct.entries }

def visitList (file : String) : List MarkupNode → VisitListOut
  | [] => { nodes := [], edits := 0, warns := 0, entries := [] }
  | n :: ns =>
    let r := visitNode file n
    let rs := visitList file ns
    { nodes := r.node :: rs.nodes, edits := r.edits + rs.edits,
      warns := r.warns + rs.warns, entries := r.entries ++ rs.entries }

end

structure TplOptions where
  write : Bool
deriving DecidableEq, Repr

/-- `transformTemplates(files, reporter, options)`: per markup file, parse
(the input carries the parsed tree), visit, and — only when at least one
structural edit was counted and the write flag is set — write the
serialized tree back; the second component collects the written files. -/
def transformTemplates :
    List (String × MarkupNode) → TplOptions → List ChangeEntry × List (String × MarkupNode)
  | [], _ => ([], [])
  | f :: fs, opts =>
    let r := visitNode f.1 f.2
    let rest := transformTemplates fs opts
    (r.entries ++ rest.1,
     (if 0 < r.edits ∧ opts.write then [(f.1, r.node)] else []) ++ rest.2)

end TransformTemplates

/-! ## Claim C5 — write flag is a pure preview toggle -/

/-- C5: `transformTemplates` with the write flag off performs no file
write and produces exactly the change-log entries, in the same order, that
the run with the flag on produces; and with the flag on, a file is written
back exactly when at least one structural edit (`edits > 0`) was counted
in it. -/
theorem c5_write_flag_preview_equivalence
    (files : List (String × TransformTemplates.MarkupNode)) :
    (TransformTemplates.transformTemplates files { write := false }).1 =
      (TransformTemplates.transformTemplates files { write := true }).1 ∧
    (TransformTemplates.transformTemplates files { write := false }).2 = [] ∧
    (TransformTemplates.transformTemplates files { write := true }).2 =
      files.filterMap (fun f =>
        if 0 < (TransformTemplates.visitNode f.1 f.2).edits then
          some (f.1, (TransformTemplates.visitNode f.1 f.2).node)
        else none) := by
  induction files with
  | nil => exact ⟨rfl, rfl, rfl⟩
  | cons f fs ih =>
    refine ⟨?_, ?_, ?_⟩
    · unfold TransformTemplates.transformTemplates
      dsimp only
      rw [ih.1]
    · unfold TransformTemplates.transformTemplates
      dsimp only
      rw [ih.2.1]
      simp
    · unfold TransformTemplates.transformTemplates
      dsimp only
      rw [ih.2.2, List.filterMap_cons]
      by_cases he : 0 < (TransformTemplates.visitNode f.1 f.2).edits
      · rw [if_pos he, if_pos ⟨he, rfl⟩]
        rfl
      · rw [if_neg he, if_neg (by intro hcon; exact he hcon.1)]
        rfl

/-! ## @inlineView / @noView / @customElement pass
(src/passes/transform-custom-element.ts) -/

namespace TransformCustomElement

/-- `aureliaV1Modules` of transform-custom-element.ts
(`new Set(['aurelia-framework', 'aurelia-templating'])`), in Set insertion
order. -/
def ceV1Modules : List String := ["aurelia-framework", "aurelia-templating"]

structure CESets where
  inlineViewLocals : List String
  noViewLocals : List String
  customElementLocals : List String
  inlineViewNamespaces : List String
  noViewNamespaces : List String
  customElementNamespaces : List String
deriving DecidableEq, Repr

def addV1Ns (s : CESets) (ns : String) : CESets :=
  { inlineViewLocals := s.inlineViewLocals,
    noViewLocals := s.noViewLocals,
    customElementLocals := s.customElementLocals,
    inlineViewNamespaces := s.inlineViewNamespaces ++ [ns],
    noViewNamespaces := s.noViewNamespaces ++ [ns],
    customElementNamespaces := s.customElementNamespaces ++ [ns] }

def addV1Named (s : CESets) (ni : NamedImport) : CESets :=
  let s1 := if ni.name = "inlineView" then
    { s with inlineViewLocals := s.inlineViewLocals ++ [ni.localName] } else s
  let s2 := if ni.name = "noView" then
    { s1 with noViewLocals := s1.noViewLocals ++ [ni.localName] } else s1
  if ni.name = "customElement" then
    { s2 with customElementLocals := s2.customElementLocals ++ [ni.localName] } else s2

/-- The per-file local-name/namespace sets built from the import
declarations before any class is visited. -/
def buildCESets (imports : List ImportDecl) : CESets :=
  imports.foldl
    (fun s imp =>
      let s1 :=
        if ceV1Modules.contains imp.moduleSpecifier then
          let sA := match imp.namespaceImport with
            | some ns => addV1Ns s ns
            | none => s
          imp.namedImports.foldl addV1Named sA
        else s
      if imp.moduleSpecifier = "aurelia" then
        let sB := match imp.namespaceImport with
          | some ns =>
            { s1 with customElementNamespaces := s1.customElementNamespaces ++ [ns] }
          | none => s1
        imp.namedImports.foldl
          (fun s2 ni =>
            if ni.name = "customElement" then
              { s2 with customElementLocals := s2.customElementLocals ++ [ni.localName] }
            else s2) sB
      else s1)
    { inlineViewLocals := [], noViewLocals := [], customElementLocals := [],
      inlineViewNamespaces := [], noViewNamespaces := [], customElementNamespaces := [] }

/-- `getDecoratorMatch`: `some b` when the decorator denotes the given
export (`b` = whether it is a call), `none` otherwise. -/
def getDecoratorMatch (expr : DecoratorExpr) (locals namespaces : List String)
    (name : String) : Option Bool :=
  match expr with
  | DecoratorExpr.callExpr (CalleeExpr.ident n) _ =>
    if locals.contains n then some true else none
  | DecoratorExpr.callExpr (CalleeExpr.propAccess t n) _ =>
    if n = name ∧ namespaces.contains t then some true else none
  | DecoratorExpr.callExpr CalleeExpr.otherExpr _ => none
  | DecoratorExpr.plainDeco (CalleeExpr.ident n) =>
    if locals.contains n then some false else none
  | DecoratorExpr.plainDeco (CalleeExpr.propAccess t n) =>
    if n = name ∧ namespaces.contains t then some false else none
  | DecoratorExpr.plainDeco CalleeExpr.otherExpr => none

structure CEClass where
  className : Option String
  decorators : List DecoratorExpr
deriving DecidableEq, Repr

structure CEFile where
  path : String
  imports : List ImportDecl
  classes : List CEClass
deriving DecidableEq, Repr

/-- The mutable locals of the decorator loop of one class. -/
structure CEDecoState where
  templateExpr : Option String
  hasInlineView : Bool
  hasNoView : Bool
deriving DecidableEq, Repr

structure CEDecoOut where
  state : CEDecoState
  keep : Bool
  entries : List ChangeEntry
  touched : Bool
deriving DecidableEq, Repr

def decoArgs : DecoratorExpr → List ArgExpr
  | DecoratorExpr.callExpr _ args => args
  | DecoratorExpr.plainDeco _ => []

/-- The `if (noViewMatch)` block, reached unless an earlier `continue`
fired. -/
def noViewBlock (file cname : String) (noMatch : Option Bool) (o : CEDecoOut) : CEDecoOut :=
  match noMatch with
  | some _ =>
    { state := { templateExpr := some "null",
                 hasInlineView := o.state.hasInlineView, hasNoView := true },
      keep := false,
      entries := o.entries ++
        [⟨file, ChangeKind.edit, "Removed @noView from class " ++ cname, none, none⟩],
      touched := true }
  | none => o

/-- One decorator of the per-class loop of `transformCustomElement`. -/
def processCEDecorator (file cname : String) (sets : CESets) (st : CEDecoState)
    (deco : DecoratorExpr) : CEDecoOut :=
  let inlineMatch :=
    getDecoratorMatch deco sets.inlineViewLocals sets.inlineViewNamespaces "inlineView"
  let noMatch := getDecoratorMatch deco sets.noViewLocals sets.noViewNamespaces "noView"
  if inlineMatch = none ∧ noMatch = none then
    { state := st, keep := true, entries := [], touched := false }
  else
    match inlineMatch with
    | none =>
      noViewBlock file cname noMatch { state := st, keep := true, entries := [], touched := false }
    | some isCall =>
      let st1 : CEDecoState := { st with hasInlineView := true }
      if isCall then
        match decoArgs deco with
        | [] =>
          { state := st1, keep := true,
            entries := [⟨file, ChangeKind.warn,
              "@inlineView on class " ++ cname
                ++ " has no template argument. Manual migration required.", none, none⟩],
            touched := false }
        | a :: rest =>
          let st2 : CEDecoState := { st1 with templateExpr := some a.text }
          let extra : List ChangeEntry :=
            if rest.length > 0 then
              [⟨file, ChangeKind.warn,
                "@inlineView on class " ++ cname
                  ++ " has extra arguments. Dependencies need manual migration.",
                none, none⟩]
            else []
          noViewBlock file cname noMatch
            { state := st2, keep := false,
              entries := extra ++
                [⟨file, ChangeKind.edit,
                  "Removed @inlineView from class " ++ cname, none, none⟩],
              touched := true }
      else
        { state := st1, keep := true,
          entries := [⟨file, ChangeKind.warn,
            "@inlineView on class " ++ cname
              ++ " is not a call expression. Manual migration required.", none, none⟩],
          touched := false }

structure CEClassLoopOut where
  state : CEDecoState
  kept : List DecoratorExpr
  entries : List ChangeEntry
  touched : Bool
deriving DecidableEq, Repr

def processCEDecorators (file cname : String) (sets : CESets) (st : CEDecoState) :
    List DecoratorExpr → CEClassLoopOut
  | [] => { state := st, kept := [], entries := [], touched := false }
  | d :: ds =>
    let r := processCEDecorator file cname sets st d
    let rest := processCEDecorators file cname sets r.state ds
    { state := rest.state,
      kept := (if r.keep then [d] else []) ++ rest.kept,
      entries := r.entries ++ rest.entries,
      touched := r.touched || rest.touched }

structure MergeOut where
  deco : DecoratorExpr
  entries : List ChangeEntry
  touched : Bool
deriving DecidableEq, Repr

/-- Merge the extracted template into an existing `@customElement`
decorator (the four call shapes plus the non-call shape). -/
def mergeIntoCustomDeco (file cname tmpl : String) (d : DecoratorExpr) : MergeOut :=
  match d with
  | DecoratorExpr.callExpr callee args =>
    match args with
    | [] =>
      { deco := DecoratorExpr.callExpr callee [ArgExpr.objLit [("template", tmpl)]],
        entries := [⟨file, ChangeKind.edit,
          "Updated @customElement on class " ++ cname ++ " to include template",
          none, none⟩],
        touched := true }
    | [ArgExpr.objLit props] =>
      if props.any (fun pr => pr.1 = "template") then
        { deco := d,
          entries := [⟨file, ChangeKind.warn,
            "@customElement on class " ++ cname
              ++ " already has a template. Verify inlineView/noView migration.",
            none, none⟩],
          touched := false }
      else
        { deco := DecoratorExpr.callExpr callee
            [ArgExpr.objLit (props ++ [("template", tmpl)])],
          entries := [⟨file, ChangeKind.edit,
            "Added template to @customElement on class " ++ cname, none, none⟩],
          touched := true }
    | [a] =>
      { deco := DecoratorExpr.callExpr callee
          [ArgExpr.objLit [("name", a.text), ("template", tmpl)]],
        entries := [⟨file, ChangeKind.edit,
          "Converted @customElement('" ++ a.text
            ++ "') to object form with template on class " ++ cname, none, none⟩],
        touched := true }
    | _ =>
      { deco := d,
        entries := [⟨file, ChangeKind.warn,
          "@customElement on class " ++ cname
            ++ " has unexpected arguments. Manual migration required.", none, none⟩],
        touched := false }
  | DecoratorExpr.plainDeco callee =>
    { deco := DecoratorExpr.callExpr callee [ArgExpr.objLit [("template", tmpl)]],
      entries := [⟨file, ChangeKind.edit,
        "Updated @customElement on class " ++ cname ++ " to include template",
        none, none⟩],
      touched := true }

/-- `cls.getDecorators().find(...)` plus the in-place replacement. -/
def replaceFirstCustom (file cname tmpl : String) (sets : CESets) :
    List DecoratorExpr → Option (List DecoratorExpr × List ChangeEntry × Bool)
  | [] => none
  | d :: ds =>
    if (getDecoratorMatch d sets.customElementLocals
        sets.customElementNamespaces "customElement").isSome then
      let m := mergeIntoCustomDeco file cname tmpl d
      some (m.deco :: ds, m.entries, m.touched)
    else
      (replaceFirstCustom file cname tmpl sets ds).map
        (fun r => (d :: r.1, r.2.1, r.2.2))

structure CEClassOut where
  cls : CEClass
  entries : List ChangeEntry
  touched : Bool
deriving DecidableEq, Repr

def processCEClass (file : String) (sets : CESets) (cls : CEClass) : CEClassOut :=
  let cname := displayName cls.className
  if cls.decorators.isEmpty then { cls := cls, entries := [], touched := false }
  else
    let lr := processCEDecorators file cname sets
      { templateExpr := none, hasInlineView := false, hasNoView := false } cls.decorators
    if ¬ (lr.state.hasInlineView || lr.state.hasNoView) then
      { cls := { cls with decorators := lr.kept }, entries := lr.entries,
        touched := lr.touched }
    else
      match lr.state.templateExpr with
      | none =>
        { cls := { cls with decorators := lr.kept }, entries := lr.entries,
          touched := lr.touched }
      | some tmpl =>
        match replaceFirstCustom file cname tmpl sets lr.kept with
        | some r =>
          { cls := { cls with decorators := r.1 },
            entries := lr.entries ++ r.2.1,
            touched := lr.touched || r.2.2 }
        | none =>
          { cls := { cls with decorators := lr.kept ++
              [DecoratorExpr.callExpr (CalleeExpr.ident "customElement")
                [ArgExpr.objLit [("template", tmpl)]]] },
            entries := lr.entries ++
              [⟨file, ChangeKind.add,
                "Added @customElement with template to class " ++ cname, none, none⟩],
            touched := true }

def processCEClasses (file : String) (sets : CESets) :
    List CEClass → List CEClass × List ChangeEntry × Bool
  | [] => ([], [], false)
  | c :: cs =>
    let r := processCEClass file sets c
    let rest := processCEClasses file sets cs
    (r.cls :: rest.1, r.entries ++ rest.2.1, r.touched || rest.2.2)

/-- `transformCustomElement` restricted to one source file. -/
def transformCustomElementFile (sf : CEFile) : CEFile × List ChangeEntry :=
  let sets := buildCESets sf.imports
  if sets.inlineViewLocals = [] ∧ sets.noViewLocals = [] ∧
      sets.inlineViewNamespaces = [] ∧ sets.noViewNamespaces = [] then
    (sf, [])
  else
    let r := processCEClasses sf.path sets sf.classes
    let imports1 :=
      if r.2.2 then
        TransformDI.ensureImport
          (TransformDI.removeNamedImports
            (TransformDI.removeNamedImports sf.imports
              "aurelia-framework" ["inlineView", "noView", "customElement"])
            "aurelia-templating" ["inlineView", "noView", "customElement"])
          "aurelia" ["customElement"]
      else sf.imports
    ({ path := sf.path, imports := imports1, classes := r.1 }, r.2.1)

end TransformCustomElement

/-! ## Claim C2 — @inlineView with more than one argument -/

/-- A file with `import { inlineView, customElement } from
'aurelia-framework'` and one class whose `@inlineView` call carries two
arguments (template plus dependencies). -/
def c2File : TransformCustomElement.CEFile :=
  { path := "foo.ts",
    imports := [{ moduleSpecifier := "aurelia-framework",
                  namedImports := [{ name := "inlineView", aliasName := none },
                                   { name := "customElement", aliasName := none }],
                  defaultImport := none, namespaceImport := none }],
    classes := [{ className := some "Foo",
                  decorators := [DecoratorExpr.callExpr (CalleeExpr.ident "inlineView")
                    [ArgExpr.plainArg "'<template></template>'",
                     ArgExpr.plainArg "[Dep]"]] }] }

/-- C2 counterexample: on a two-argument `@inlineView`,
`transformCustomElement` does NOT leave the decorator and class unmodified
— it removes the decorator, merges the first argument into a synthesized
`@customElement({ template: ... })`, and rewrites the imports, besides the
extra-arguments warning. -/
theorem c2_counterexample_two_arg_inline_view_rewritten :
    (TransformCustomElement.transformCustomElementFile c2File).1 =
      { path := "foo.ts",
        imports := [{ moduleSpecifier := "aurelia",
                      namedImports := [{ name := "customElement", aliasName := none }],
                      defaultImport := none, namespaceImport := none }],
        classes := [{ className := some "Foo",
                      decorators := [DecoratorExpr.callExpr (CalleeExpr.ident "customElement")
                        [ArgExpr.objLit [("template", "'<template></template>'")]]] }] } ∧
    (TransformCustomElement.transformCustomElementFile c2File).2 =
      [⟨"foo.ts", ChangeKind.warn,
        "@inlineView on class Foo has extra arguments. Dependencies need manual migration.",
        none, none⟩,
       ⟨"foo.ts", ChangeKind.edit, "Removed @inlineView from class Foo", none, none⟩,
       ⟨"foo.ts", ChangeKind.add,
        "Added @customElement with template to class Foo", none, none⟩] := by
  constructor <;> rfl

/-- C2 amended: an `@inlineView` call with more than one argument is
warned about ("extra arguments") but NOT skipped: the pass still takes the
first argument as the template, removes the decorator, and proceeds to the
`@customElement` merge; only an `@inlineView` call with zero arguments is
skipped, with the decorator kept and the class's state unchanged apart
from the warning. -/
theorem c2_amended_multi_arg_inline_view_warns_and_merges :
    (∀ (file cname : String) (sets : TransformCustomElement.CESets)
        (st : TransformCustomElement.CEDecoState) (callee : CalleeExpr)
        (a b : ArgExpr) (rest : List ArgExpr),
      TransformCustomElement.getDecoratorMatch
        (DecoratorExpr.callExpr callee (a :: b :: rest))
        sets.inlineViewLocals sets.inlineViewNamespaces "inlineView" = some true →
      TransformCustomElement.getDecoratorMatch
        (DecoratorExpr.callExpr callee (a :: b :: rest))
        sets.noViewLocals sets.noViewNamespaces "noView" = none →
      TransformCustomElement.processCEDecorator file cname sets st
        (DecoratorExpr.callExpr callee (a :: b :: rest)) =
        { state := { templateExpr := some a.text, hasInlineView := true,
                     hasNoView := st.hasNoView },
          keep := false,
          entries := [⟨file, ChangeKind.warn,
              "@inlineView on class " ++ cname
                ++ " has extra arguments. Dependencies need manual migration.",
              none, none⟩,
            ⟨file, ChangeKind.edit,
              "Removed @inlineView from class " ++ cname, none, none⟩],
          touched := true }) ∧
    (∀ (file cname : String) (sets : TransformCustomElement.CESets)
        (st : TransformCustomElement.CEDecoState) (callee : CalleeExpr),
      TransformCustomElement.getDecoratorMatch (DecoratorExpr.callExpr callee [])
        sets.inlineViewLocals sets.inlineViewNamespaces "inlineView" = some true →
      TransformCustomElement.getDecoratorMatch (DecoratorExpr.callExpr callee [])
        sets.noViewLocals sets.noViewNamespaces "noView" = none →
      TransformCustomElement.processCEDecorator file cname sets st
        (DecoratorExpr.callExpr callee []) =
        { state := { st with hasInlineView := true },
          keep := true,
          entries := [⟨file, ChangeKind.warn,
            "@inlineView on class " ++ cname
              ++ " has no template argument. Manual migration required.", none, none⟩],
          touched := false }) := by
  constructor
  · intro file cname sets st callee a b rest hmatch hno
    unfold TransformCustomElement.processCEDecorator
    rw [hmatch, hno]
    rw [if_neg (by simp)]
    dsimp only [TransformCustomElement.decoArgs]
    rw [if_pos (by simp : (0 : Nat) < (b :: rest).length)]
    unfold TransformCustomElement.noViewBlock
    rfl
  · intro file cname sets st callee hmatch hno
    unfold TransformCustomElement.processCEDecorator
    rw [hmatch, hno]
    rw [if_neg (by simp)]
    rfl

/-- C2 amended witness: the two-argument decorator of `c2File` is removed
with the extra-arguments warning, while a zero-argument `@inlineView` is
kept with only the no-template warning. -/
theorem c2_amended_witness :
    TransformCustomElement.processCEDecorator "foo.ts" "Foo"
      (TransformCustomElement.buildCESets c2File.imports)
      { templateExpr := none, hasInlineView := false, hasNoView := false }
      (DecoratorExpr.callExpr (CalleeExpr.ident "inlineView")
        [ArgExpr.plainArg "'<template></template>'", ArgExpr.plainArg "[Dep]"]) =
      { state := { templateExpr := some "'<template></template>'",
                   hasInlineView := true, hasNoView := false },
        keep := false,
        entries := [⟨"foo.ts", ChangeKind.warn,
            "@inlineView on class Foo has extra arguments. Dependencies need manual migration.",
            none, none⟩,
          ⟨"foo.ts", ChangeKind.edit, "Removed @inlineView from class Foo", none, none⟩],
        touched := true } ∧
    TransformCustomElement.processCEDecorator "foo.ts" "Foo"
      (TransformCustomElement.buildCESets c2File.imports)
      { templateExpr := none, hasInlineView := false, hasNoView := false }
      (DecoratorExpr.callExpr (CalleeExpr.ident "inlineView") []) =
      { state := { templateExpr := none, hasInlineView := true, hasNoView := false },
        keep := true,
        entries := [⟨"foo.ts", ChangeKind.warn,
          "@inlineView on class Foo has no template argument. Manual migration required.",
          none, none⟩],
        touched := false } := by
  constructor
  · exact (c2_amended_multi_arg_inline_view_warns_and_merges.1 "foo.ts" "Foo"
      (TransformCustomElement.buildCESets c2File.imports)
      { templateExpr := none, hasInlineView := false, hasNoView := false }
      (CalleeExpr.ident "inlineView")
      (ArgExpr.plainArg "'<template></template>'") (ArgExpr.plainArg "[Dep]") []
      (by decide) (by decide))
  · exact (c2_amended_multi_arg_inline_view_warns_and_merges.2 "foo.ts" "Foo"
      (TransformCustomElement.buildCESets c2File.imports)
      { templateExpr := none, hasInlineView := false, hasNoView := false }
      (CalleeExpr.ident "inlineView")
      (by decide) (by decide))
